import Mathlib

/-!
Shallow embedding of the replay-buffer / sampling subsystem of
`rl/dataset.py` (classes `ReplayBuffer`, `LearnedRewardReplayBuffer`,
`RandomSampler`, `HERSampler`), together with theorems settling the
frozen claims about it.

Modelling conventions, fixed once here:

* Python runtime values stored in the buffer (numpy scalars, numpy
  arrays / lists, and `OrderedDict` records) are modelled by the
  inductive type `Val` below: numbers carry a rational, lists are
  `Val.arr`, string-keyed mappings are `Val.vdict`.
* Python `dict`s keyed by strings (the buffer itself, a sampled
  transition batch) are modelled as association lists
  `List (String × _)` with first-key-wins lookup; `dset` is Python
  dict assignment (replace in place if present, append otherwise),
  which preserves key order exactly as CPython does.
* `collections.defaultdict(list)` reads that materialise a default are
  modelled by `dget _ _ []`.  (The side effect of inserting the default
  into the dict is dropped; it is observable in the source only through
  key iteration over phantom keys, which no claim exercises.)
* `np.random.randint(lo, hi)` is modelled by `randint lo hi e` where
  `e` is an arbitrary entropy value supplied by the caller: the result
  is `lo + e % (hi - lo)` — an arbitrary element of `[lo, hi)`,
  surjectively so as `e` varies — and `none` when `lo ≥ hi`, which is
  exactly the `ValueError: low >= high` numpy raises.
  `np.random.uniform()` draws are likewise supplied by the caller as
  rationals (numpy guarantees them nonnegative and `< 1`).
* Fallible Python operations that the embedding keeps fallible return
  `Option`; `none` models a raised exception (`IndexError`,
  `ValueError`, `AssertionError`).  List reads that can only be out of
  range through caller misuse outside every claim are totalised with
  `List.getD` and annotated at their definition site.
-/

/-- A Python runtime value as stored in the replay buffer: a numeric
scalar, a list/array of values, or a string-keyed mapping
(`OrderedDict`). -/
inductive Val : Type where
  | num (q : ℚ)
  | arr (l : List Val)
  | vdict (l : List (String × Val))

/-- Python truthiness of a stored value (`if rollout["done"][-1]:`):
a number is truthy iff nonzero, a list or mapping iff nonempty. -/
def truthy : Val → Bool
  | .num q => decide (q ≠ 0)
  | .arr l => !l.isEmpty
  | .vdict l => !l.isEmpty

/-- Numeric content of a value, used where the source does numpy
arithmetic on it (`np.array(transitions["env_rew"]) + intr_rew`).
Non-numeric operands would make numpy raise; every theorem below that
touches this function assumes numeric operands, so the default `0` is
never exercised. -/
def Val.toQ : Val → ℚ
  | .num q => q
  | _ => 0

/-- First-key-wins lookup in an association list modelling a Python
dict (`d[k]`, raising `KeyError` when absent — hence `Option`). -/
def dlookup {α : Type} : List (String × α) → String → Option α
  | [], _ => none
  | (k0, v0) :: rest, k => if k0 = k then some v0 else dlookup rest k

/-- Dict lookup with a default; `dget b k []` models a
`defaultdict(list)` read. -/
def dget {α : Type} (b : List (String × α)) (k : String) (d : α) : α :=
  (dlookup b k).getD d

/-- Python dict assignment `d[k] = v`: replace the (unique) entry for
`k` in place, or append a fresh entry — key order is preserved exactly
as in CPython. -/
def dset {α : Type} : List (String × α) → String → α → List (String × α)
  | [], k, v => [(k, v)]
  | (k0, v0) :: rest, k, v =>
      if k0 = k then (k0, v) :: rest else (k0, v0) :: dset rest k v

/-- `defaultdict` read-modify-write `d[k] = f(d[k])` (with default
`[]`), the shape of every buffer write in `store_episode`. -/
def ddUpdate {α : Type} (b : List (String × List α)) (k : String)
    (f : List α → List α) : List (String × List α) :=
  dset b k (f (dget b k []))

/-- `np.random.randint(lo, hi)` given entropy `e`: an arbitrary element
of `[lo, hi)`, or the `ValueError` (`none`) numpy raises when
`lo ≥ hi`. -/
def randint (lo hi e : ℕ) : Option ℕ :=
  if lo < hi then some (lo + e % (hi - lo)) else none

/-! ## `ReplayBuffer` (rl/dataset.py lines 11–91) -/

/-- A rollout argument to `store_episode`: a Python dict from key to a
list of per-step values, modelled as a total function (every claim
supplies all keys the call reads; a missing key would be a `KeyError`).
-/
abbrev Rollout : Type := String → List Val

/-- The `ReplayBuffer` object state: `_size` (`config.buffer_size`),
`_keys`, `_idx`, `_current_size`, `_new_episode`, and `_buffer`
(a `defaultdict(list)` mapping each key to its list of episode
slots). -/
structure Buffer : Type where
  size : ℕ
  keys : List String
  idx : ℕ
  current_size : ℕ
  new_episode : Bool
  buf : List (String × List (List Val))

namespace ReplayBuffer

/-- `ReplayBuffer.clear`. -/
def clear (b : Buffer) : Buffer :=
  { b with idx := 0, current_size := 0, new_episode := true, buf := [] }

/-- `ReplayBuffer.__init__(config, keys, sample_func)`: records the
capacity and keys and calls `clear`. -/
def init (size : ℕ) (keys : List String) : Buffer :=
  clear { size := size, keys := keys, idx := 0, current_size := 0,
          new_episode := true, buf := [] }

/-- The per-key write loop of `store_episode`
(`for k in self._keys: ...`), applying one update function per key to
the `defaultdict`. -/
def writeKeys (buf : List (String × List (List Val))) (keys : List String)
    (F : String → List (List Val) → List (List Val)) :
    List (String × List (List Val)) :=
  keys.foldl (fun acc k => ddUpdate acc k (F k)) buf

/-- `self._buffer[k][self._idx].append(x)` in the mid-episode branch.
Python raises `IndexError` when `idx` is out of range; that branch is
unreachable from any constructed buffer because `_new_episode` is never
assigned `False` anywhere in the source, so the totalised `List.set`
(a no-op out of range) is never exercised. -/
def appendAt (eps : List (List Val)) (idx : ℕ) (x : Val) : List (List Val) :=
  eps.set idx (eps.getD idx [] ++ [x])

/-- The integrity assertion of `store_episode` (lines 45–49):
when the key `"ac"` is present, assert
`len(self._buffer["ob"][self._idx]) == len(self._buffer["ac"][self._idx]) + 1`.
`none` models both a failed assertion and the `IndexError` raised when
the indexed slot does not exist (the source would raise either way).
The `defaultdict` has materialised every tracked key by this point, so
`"ac" in self._buffer` is presence of `"ac"` among the entries. -/
def assertCheck (buf : List (String × List (List Val))) (idx : ℕ) :
    Option Unit :=
  if (dlookup buf "ac").isSome then
    match (dget buf "ob" []).get? idx, (dget buf "ac" []).get? idx with
    | some ob, some ac => if ob.length = ac.length + 1 then some () else none
    | _, _ => none
  else some ()

/-- `ReplayBuffer.store_episode(rollout)` (lines 32–53).  The write
branches on `_new_episode`; the fresh-episode branch appends a new slot
per key while `_current_size < _size` and otherwise overwrites the slot
at the cursor; the mid-episode branch appends the increment to the slot
at the cursor as a single element (`list.append`), the `"ob"` key
dropping its duplicated leading entry (`rollout[k][1:]`).  Then the
assertion runs, and if the final `done` flag is truthy the cursor
advances modulo `_size`, `_current_size` increments (with no cap), and
`_new_episode` is set back to `True`.  `rollout["done"][-1]` on an
empty `done` raises (`none`).  The per-call buffer update (the
source's mutated `self._buffer` value) is factored out as `writeBuf`. -/
def writeBuf (b : Buffer) (rollout : Rollout) :
    List (String × List (List Val)) :=
  if b.new_episode then
    writeKeys b.buf b.keys (fun k eps =>
      if b.current_size < b.size then eps ++ [rollout k]
      else eps.set b.idx (rollout k))
  else
    writeKeys b.buf b.keys (fun k eps =>
      if k = "ob" then appendAt eps b.idx (Val.arr ((rollout k).drop 1))
      else appendAt eps b.idx (Val.arr (rollout k)))

/-- `ReplayBuffer.store_episode` proper: apply the per-key write, run
the integrity assertion, read the final `done` flag, and close the
episode when it is truthy. -/
def store_episode (b : Buffer) (rollout : Rollout) : Option Buffer :=
  match assertCheck (writeBuf b rollout) b.idx with
  | none => none
  | some _ =>
      match (rollout "done").getLast? with
      | none => none
      | some d =>
          if truthy d then
            some { b with buf := writeBuf b rollout,
                          idx := (b.idx + 1) % b.size,
                          current_size := b.current_size + 1,
                          new_episode := true }
          else
            some { b with buf := writeBuf b rollout }

/-- A sequence of `store_episode` calls, stopping at the first raised
exception. -/
def storeAll (b : Buffer) (rs : List Rollout) : Option Buffer :=
  rs.foldlM store_episode b

/-- `ReplayBuffer.state_dict()` (line 61): returns the buffer dict. -/
def state_dict (b : Buffer) : List (String × List (List Val)) :=
  b.buf

/-- `ReplayBuffer.load_state_dict(state_dict)` (lines 64–66): replaces
the buffer dict and recomputes `_current_size` as
`len(self._buffer["ac"])` (a `defaultdict` read: `0` when absent). -/
def load_state_dict (b : Buffer) (d : List (String × List (List Val))) :
    Buffer :=
  { b with buf := d, current_size := (dget d "ac" []).length }

end ReplayBuffer

/-! ## Demonstration loading (rl/dataset.py lines 68–91) -/

/-- A directory entry as produced by `os.scandir`. -/
structure DirEntry : Type where
  path : String
  is_file : Bool

/-- The unpickled contents of one demonstration file: the keys
`load_demonstrations` reads (`data["obs"]`, `data["actions"]`,
`data["rewards"]`); a file missing one of them raises, which is outside
every claim settled here. -/
structure Demo : Type where
  obs : List Val
  actions : List Val
  rewards : List Val

/-- `d.path.endswith("pkl")`, computed on the character sequence. -/
def pathEndsWith (s suffix : String) : Bool :=
  suffix.data.isSuffixOf s.data

/-- The file-selection loop of `load_demonstrations` (lines 72–79):
collect paths of regular files ending in `"pkl"`, maintaining the
running count `i`, and `break` as soon as `i > num_demos` — i.e. after
the `num_demos + 1`-st match (the preserved off-by-one). -/
def selectDemos : List DirEntry → ℕ → ℕ → List String
  | [], _, _ => []
  | e :: rest, i, n =>
      if e.is_file && pathEndsWith e.path "pkl" then
        if i + 1 > n then [e.path] else e.path :: selectDemos rest (i + 1) n
      else
        if i > n then [] else selectDemos rest i n

/-- The per-file rollout built by `load_demonstrations` (lines 85–90):
`ob := data["obs"]`, `ac := [OrderedDict(default=ac) for ac in
data["actions"]]`, `rew := data["rewards"]`, and
`done := np.zeros(len(actions))` followed by `done[-1] = 1` — which
raises `IndexError` (`none`) when `actions` is empty. -/
def demoRollout (d : Demo) : Option Rollout :=
  if d.actions.length = 0 then none
  else some (fun k =>
    if k = "ob" then d.obs
    else if k = "ac" then d.actions.map (fun a => Val.vdict [("default", a)])
    else if k = "rew" then d.rewards
    else if k = "done" then
      (List.replicate d.actions.length (Val.num 0)).set
        (d.actions.length - 1) (Val.num 1)
    else [])

namespace ReplayBuffer

/-- `ReplayBuffer.load_demonstrations(demo_folder, num_demos)`
(lines 68–91): select matching files with the counting loop, then
unpickle each (`read`) and feed the converted rollout through
`store_episode`. -/
def load_demonstrations (b : Buffer) (entries : List DirEntry)
    (read : String → Demo) (num_demos : ℕ) : Option Buffer :=
  (selectDemos entries 0 num_demos).foldlM
    (fun acc path => do
      let r ← demoRollout (read path)
      store_episode acc r) b

end ReplayBuffer

/-! ## Samplers (rl/dataset.py lines 99–136, 160–193, 196–258)

All three samplers read the buffer dict (`episode_batch`) and draw a
batch with the same two-stage scheme: `batch_size` episode indices from
`np.random.randint(0, rollout_batch_size, batch_size)`, then one
timestep per draw from `np.random.randint(len(ac[episode_idx]))`.
Entropy for the `i`-th draw of each site is supplied by the functions
`gE`, `gT` (and `gU`, `gF` for HER).  The final `np.stack` /
component-wise stacking step is a representation change that preserves
the per-key sequences gathered here and is not modelled; the batch is
returned as the pre-stack `transitions` dict.

In-range list reads `episode_batch[key][episode_idx][t]` are totalised
with `List.getD _ _ (Val.num 0)`; out of range Python raises
`IndexError`, which no settled claim reaches (the theorems' hypotheses
keep every such read in range). -/

abbrev EpisodeBatch : Type := List (String × List (List Val))

namespace RandomSampler

/-- `RandomSampler.sample_func(episode_batch, batch_size_in_transitions)`
(lines 161–193). -/
def sample_func (eb : EpisodeBatch) (batch_size : ℕ) (gE gT : ℕ → ℕ) :
    Option (List (String × List Val)) := do
  let rollout_batch_size := (dget eb "ac" []).length
  let episode_idxs ← (List.range batch_size).mapM
      (fun i => randint 0 rollout_batch_size (gE i))
  let t_samples ← (List.range batch_size).mapM
      (fun i => randint 0
        ((dget eb "ac" []).getD (episode_idxs.getD i 0) []).length (gT i))
  let pairs := episode_idxs.zip t_samples
  let transitions := eb.map (fun kv =>
      (kv.1, pairs.map (fun p => (kv.2.getD p.1 []).getD p.2 (Val.num 0))))
  let ob_next := pairs.map (fun p =>
      ((dget eb "ob" []).getD p.1 []).getD (p.2 + 1) (Val.num 0))
  pure (dset transitions "ob_next" ob_next)

end RandomSampler

namespace LearnedRewardReplayBuffer

/-- `LearnedRewardReplayBuffer.sample(batch_size_in_transitions)`
(lines 99–136): the same draw/gather/`ob_next` computation as
`RandomSampler.sample_func` (duplicated in the source), followed by
`transitions["rew"] = np.array(transitions["env_rew"]) + intr_rew`
with `intr_rew = self._rew(transitions["ob"], transitions["ob_next"])`.
The elementwise numpy addition is modelled on the numeric contents
(`Val.toQ`); mismatched lengths would make numpy raise, which no
settled claim reaches. -/
def sample (rew : List Val → List Val → List ℚ) (eb : EpisodeBatch)
    (batch_size : ℕ) (gE gT : ℕ → ℕ) : Option (List (String × List Val)) := do
  let rollout_batch_size := (dget eb "ac" []).length
  let episode_idxs ← (List.range batch_size).mapM
      (fun i => randint 0 rollout_batch_size (gE i))
  let t_samples ← (List.range batch_size).mapM
      (fun i => randint 0
        ((dget eb "ac" []).getD (episode_idxs.getD i 0) []).length (gT i))
  let pairs := episode_idxs.zip t_samples
  let transitions := eb.map (fun kv =>
      (kv.1, pairs.map (fun p => (kv.2.getD p.1 []).getD p.2 (Val.num 0))))
  let ob_next := pairs.map (fun p =>
      ((dget eb "ob" []).getD p.1 []).getD (p.2 + 1) (Val.num 0))
  let transitions1 := dset transitions "ob_next" ob_next
  let intr_rew := rew (dget transitions1 "ob" []) (dget transitions1 "ob_next" [])
  let rews := ((dget transitions1 "env_rew" []).zip intr_rew).map
      (fun p => Val.num (p.1.toQ + p.2))
  pure (dset transitions1 "rew" rews)

end LearnedRewardReplayBuffer

namespace HERSampler

/-- `HERSampler.__init__` (lines 197–203): `future_p` is
`replace_future` under the `"future"` replay strategy and `0`
otherwise. -/
def future_p (replay_strategy : String) (replace_future : ℚ) : ℚ :=
  if replay_strategy = "future" then replace_future else 0

/-- `HERSampler.sample_her_transitions(episode_batch,
batch_size_in_transitions)` (lines 205–258).  After the common
draw/gather/`ob_next` phase, `transitions["r"]` is created as zeros and
then every index is overwritten by the relabeling loop, so the zeros
never reach the output; the loop is modelled index by index.  For each
`i`: when `np.random.uniform() < future_p` (`gU i < fp`; the uniform
draw is nonnegative), `future_t` is drawn by
`np.random.randint(t + 1, len(ac[episode_idx]) + 1)` and the goal
`transitions["g"][i]` is overwritten with `ag[episode_idx][future_t]`
exactly when `reward_func(ag[episode_idx][t], future_ag, None) < 0`;
finally `transitions["r"][i] = reward_func(ag[episode_idx][t + 1],
transitions["g"][i], None)`. -/
def sample_her_transitions (reward_func : Val → Val → Option Val → ℚ)
    (fp : ℚ) (eb : EpisodeBatch) (batch_size : ℕ) (gE gT : ℕ → ℕ)
    (gU : ℕ → ℚ) (gF : ℕ → ℕ) : Option (List (String × List Val)) := do
  let rollout_batch_size := (dget eb "ac" []).length
  let episode_idxs ← (List.range batch_size).mapM
      (fun i => randint 0 rollout_batch_size (gE i))
  let t_samples ← (List.range batch_size).mapM
      (fun i => randint 0
        ((dget eb "ac" []).getD (episode_idxs.getD i 0) []).length (gT i))
  let pairs := episode_idxs.zip t_samples
  let transitions := eb.map (fun kv =>
      (kv.1, pairs.map (fun p => (kv.2.getD p.1 []).getD p.2 (Val.num 0))))
  let ob_next := pairs.map (fun p =>
      ((dget eb "ob" []).getD p.1 []).getD (p.2 + 1) (Val.num 0))
  let gInit := dget transitions "g" []
  let gFinal ← (List.range pairs.length).mapM (fun i => do
      let p := pairs.getD i (0, 0)
      if gU i < fp then
        let future_t ← randint (p.2 + 1)
            (((dget eb "ac" []).getD p.1 []).length + 1) (gF i)
        let future_ag := ((dget eb "ag" []).getD p.1 []).getD future_t (Val.num 0)
        if reward_func (((dget eb "ag" []).getD p.1 []).getD p.2 (Val.num 0))
            future_ag none < 0 then
          pure future_ag
        else
          pure (gInit.getD i (Val.num 0))
      else
        pure (gInit.getD i (Val.num 0)))
  let rFinal := (List.range pairs.length).map (fun i =>
      let p := pairs.getD i (0, 0)
      Val.num (reward_func
        (((dget eb "ag" []).getD p.1 []).getD (p.2 + 1) (Val.num 0))
        (gFinal.getD i (Val.num 0)) none))
  pure (dset (dset (dset transitions "g" gFinal) "ob_next" ob_next) "r" rFinal)

end HERSampler

/-! ## Closed forms of the sampler draws

Under the well-formedness hypotheses of the theorems below every
`randint` in a sampler succeeds, and the drawn values take these closed
forms (immediately from `randint lo hi e = some (lo + e % (hi - lo))`).
-/

/-- `len(episode_batch["ac"][j])`, the length of episode `j`. -/
def acLen (eb : EpisodeBatch) (j : ℕ) : ℕ :=
  ((dget eb "ac" []).getD j []).length

/-- The episode index resolved by the `i`-th draw. -/
def epDraw (eb : EpisodeBatch) (gE : ℕ → ℕ) (i : ℕ) : ℕ :=
  gE i % (dget eb "ac" []).length

/-- The timestep resolved by the `i`-th draw. -/
def tDraw (eb : EpisodeBatch) (gE gT : ℕ → ℕ) (i : ℕ) : ℕ :=
  gT i % acLen eb (epDraw eb gE i)

/-- The future index resolved by the `i`-th HER draw
(`np.random.randint(t + 1, len(ac[episode_idx]) + 1)`). -/
def ftDraw (eb : EpisodeBatch) (gE gT gF : ℕ → ℕ) (i : ℕ) : ℕ :=
  tDraw eb gE gT i + 1 +
    gF i % (acLen eb (epDraw eb gE i) - tDraw eb gE gT i)

/-- The `zip(episode_idxs, t_samples)` list in closed form. -/
def drawPairs (eb : EpisodeBatch) (bs : ℕ) (gE gT : ℕ → ℕ) : List (ℕ × ℕ) :=
  (List.range bs).map (fun i => (epDraw eb gE i, tDraw eb gE gT i))

/-- The gathered `transitions` dict (one entry per key of
`episode_batch`) in closed form. -/
def gatherOut (eb : EpisodeBatch) (bs : ℕ) (gE gT : ℕ → ℕ) :
    List (String × List Val) :=
  eb.map (fun kv =>
    (kv.1, (drawPairs eb bs gE gT).map
      (fun p => (kv.2.getD p.1 []).getD p.2 (Val.num 0))))

/-- The synthesized `transitions["ob_next"]` list in closed form. -/
def obNextOut (eb : EpisodeBatch) (bs : ℕ) (gE gT : ℕ → ℕ) : List Val :=
  (drawPairs eb bs gE gT).map (fun p =>
    ((dget eb "ob" []).getD p.1 []).getD (p.2 + 1) (Val.num 0))

/-! ## `LearnedRewardReplayBuffer.sample` in closed form -/

/-- The reward list `np.array(transitions["env_rew"]) + intr_rew`
computed from an already-assembled transitions dict `o`. -/
def lrRews (rew : List Val → List Val → List ℚ)
    (o : List (String × List Val)) : List Val :=
  ((dget o "env_rew" []).zip (rew (dget o "ob" []) (dget o "ob_next" []))).map
    (fun p => Val.num (p.1.toQ + p.2))

/-! ## `HERSampler.sample_her_transitions` in closed form -/

/-- `episode_batch["ag"][j][s]` (totalised; in range under the
theorems' hypotheses). -/
def agAt (eb : EpisodeBatch) (j s : ℕ) : Val :=
  ((dget eb "ag" []).getD j []).getD s (Val.num 0)

/-- The gathered (pre-relabel) goal of sample `i`,
`transitions["g"][i]`. -/
def herKeep (eb : EpisodeBatch) (bs : ℕ) (gE gT : ℕ → ℕ) (i : ℕ) : Val :=
  (dget (gatherOut eb bs gE gT) "g" []).getD i (Val.num 0)

/-- The final goal of sample `i` after the HER relabeling loop. -/
def herG (reward_func : Val → Val → Option Val → ℚ) (fp : ℚ)
    (eb : EpisodeBatch) (bs : ℕ) (gE gT : ℕ → ℕ) (gU : ℕ → ℚ)
    (gF : ℕ → ℕ) (i : ℕ) : Val :=
  if gU i < fp ∧
      reward_func (agAt eb (epDraw eb gE i) (tDraw eb gE gT i))
        (agAt eb (epDraw eb gE i) (ftDraw eb gE gT gF i)) none < 0 then
    agAt eb (epDraw eb gE i) (ftDraw eb gE gT gF i)
  else herKeep eb bs gE gT i

/-- The final `transitions["g"]` list in closed form. -/
def herGList (reward_func : Val → Val → Option Val → ℚ) (fp : ℚ)
    (eb : EpisodeBatch) (bs : ℕ) (gE gT : ℕ → ℕ) (gU : ℕ → ℚ)
    (gF : ℕ → ℕ) : List Val :=
  (List.range bs).map (herG reward_func fp eb bs gE gT gU gF)

/-- The final `transitions["r"]` list in closed form (the per-index
shape of the source's reward line, with the final goal list
substituted in). -/
def herRList (reward_func : Val → Val → Option Val → ℚ) (fp : ℚ)
    (eb : EpisodeBatch) (bs : ℕ) (gE gT : ℕ → ℕ) (gU : ℕ → ℚ)
    (gF : ℕ → ℕ) : List Val :=
  (List.range bs).map (fun i =>
    let p := (drawPairs eb bs gE gT).getD i (0, 0)
    Val.num (reward_func
      (((dget eb "ag" []).getD p.1 []).getD (p.2 + 1) (Val.num 0))
      ((herGList reward_func fp eb bs gE gT gU gF).getD i (Val.num 0))
      none))

/-- The full HER batch in closed form. -/
def herOut (reward_func : Val → Val → Option Val → ℚ) (fp : ℚ)
    (eb : EpisodeBatch) (bs : ℕ) (gE gT : ℕ → ℕ) (gU : ℕ → ℚ)
    (gF : ℕ → ℕ) : List (String × List Val) :=
  dset (dset (dset (gatherOut eb bs gE gT)
      "g" (herGList reward_func fp eb bs gE gT gU gF))
    "ob_next" (obNextOut eb bs gE gT))
    "r" (herRList reward_func fp eb bs gE gT gU gF)

/-! ## The reachable-state invariant behind claim C1

Only episode-closing calls are considered (every rollout carries a
truthy final `done` flag): `_new_episode` is never assigned `False`
anywhere in the source, so each call takes the fresh-episode branch,
and each closing call advances the cursor and increments the size. -/

/-- State invariant after `n` episode-closing `store_episode` calls on
a buffer initialised with capacity `N` and keys `Ks`. -/
def BufInv (N : ℕ) (Ks : List String) (n : ℕ) (b : Buffer) : Prop :=
  b.size = N ∧ b.keys = Ks ∧ b.new_episode = true ∧
  b.current_size = n ∧ b.idx = n % N ∧
  (∀ k ∈ Ks, (dget b.buf k []).length = min n N) ∧
  (∀ k, k ∉ Ks → dlookup b.buf k = none)

/-- The standard tracked-key set of this buffer
(`ob`, `ac`, `rew`, `done`). -/
def KS4 : List String := ["ob", "ac", "rew", "done"]

/-- A minimal episode-closing rollout satisfying the ingestion
contract with `T = 1`. -/
def rollC : Rollout := fun k =>
  if k = "ob" then [Val.num 0, Val.num 0]
  else if k = "ac" then [Val.num 0]
  else if k = "rew" then [Val.num 0]
  else if k = "done" then [Val.num 1]
  else []

/-- `rollC` with its `done` flag cleared: a rollout that does not close
its episode. -/
def rollN : Rollout := fun k =>
  if k = "done" then [Val.num 0] else rollC k

/-- The ingestion contract for a rollout (spec section 6): `ob` one
longer than `ac`, `rew` and `done` as long as `ac`, at least one
step. -/
def Contract (r : Rollout) : Prop :=
  1 ≤ (r "ac").length ∧
  (r "ob").length = (r "ac").length + 1 ∧
  (r "rew").length = (r "ac").length ∧
  (r "done").length = (r "ac").length

/-- Per-slot length invariants of a buffer dict. -/
def SlotInv (bf : List (String × List (List Val))) : Prop :=
  (∀ j o a, (dget bf "ob" []).get? j = some o →
    (dget bf "ac" []).get? j = some a → o.length = a.length + 1) ∧
  (∀ j w a, (dget bf "rew" []).get? j = some w →
    (dget bf "ac" []).get? j = some a → w.length = a.length) ∧
  (∀ j dn a, (dget bf "done" []).get? j = some dn →
    (dget bf "ac" []).get? j = some a → dn.length = a.length)

/-- Reachable-state invariant for arbitrary (closing or non-closing)
contract-satisfying `store_episode` call sequences on a buffer tracking
`KS4`. -/
def Inv4 (N : ℕ) (b : Buffer) : Prop :=
  b.size = N ∧ b.keys = KS4 ∧ b.new_episode = true ∧ b.idx < N ∧
  ∃ L, (∀ k ∈ KS4, (dget b.buf k []).length = L) ∧
    min b.current_size N ≤ L ∧ b.idx ≤ L ∧
    (N ≤ b.current_size → b.idx < L) ∧ SlotInv b.buf

section DictLemmas

variable {α : Type}

theorem dlookup_dset_self (b : List (String × α)) (k : String) (v : α) :
    dlookup (dset b k v) k = some v := by
  induction b with
  | nil => simp [dset, dlookup]
  | cons p rest ih =>
      obtain ⟨k0, v0⟩ := p
      by_cases h : k0 = k
      · simp [dset, dlookup, h]
      · simp [dset, dlookup, h, ih]

theorem dlookup_dset_ne (b : List (String × α)) (k k' : String) (v : α)
    (h : k' ≠ k) : dlookup (dset b k v) k' = dlookup b k' := by
  have h' : ¬ k = k' := fun hh => h hh.symm
  induction b with
  | nil => simp [dset, dlookup, h']
  | cons p rest ih =>
      obtain ⟨k0, v0⟩ := p
      by_cases h0 : k0 = k
      · subst h0
        simp [dset, dlookup, h']
      · by_cases h1 : k0 = k'
        · subst h1
          simp [dset, dlookup, h0, h]
        · simp [dset, dlookup, h0, h1, ih]

theorem dget_dset_self (b : List (String × α)) (k : String) (v d : α) :
    dget (dset b k v) k d = v := by
  simp [dget, dlookup_dset_self]

theorem dget_dset_ne (b : List (String × α)) (k k' : String) (v d : α)
    (h : k' ≠ k) : dget (dset b k v) k' d = dget b k' d := by
  simp [dget, dlookup_dset_ne _ _ _ _ h]

theorem mem_dset (b : List (String × α)) (k : String) (v : α)
    (p : String × α) (hp : p ∈ dset b k v) : p ∈ b ∨ p = (k, v) := by
  induction b with
  | nil => simpa [dset] using hp
  | cons q rest ih =>
      obtain ⟨k0, v0⟩ := q
      by_cases h : k0 = k
      · subst h
        rcases (by simpa [dset] using hp : p = (k0, v) ∨ p ∈ rest) with h1 | h1
        · exact Or.inr h1
        · exact Or.inl (List.mem_cons_of_mem _ h1)
      · rcases (by simpa [dset, h] using hp : p = (k0, v0) ∨ p ∈ dset rest k v) with h1 | h1
        · exact Or.inl (by simp [h1])
        · rcases ih h1 with h2 | h2
          · exact Or.inl (List.mem_cons_of_mem _ h2)
          · exact Or.inr h2

theorem dlookup_ddUpdate_self (b : List (String × List α)) (k : String)
    (f : List α → List α) :
    dlookup (ddUpdate b k f) k = some (f (dget b k [])) :=
  dlookup_dset_self _ _ _

theorem dlookup_ddUpdate_ne (b : List (String × List α)) (k k' : String)
    (f : List α → List α) (h : k' ≠ k) :
    dlookup (ddUpdate b k f) k' = dlookup b k' :=
  dlookup_dset_ne _ _ _ _ h

end DictLemmas



/-! ## General helper lemmas -/

theorem mapM_option_some {α β : Type} (f : α → Option β) (g : α → β)
    (l : List α) (h : ∀ a ∈ l, f a = some (g a)) :
    l.mapM f = some (l.map g) := by
  induction l with
  | nil => rfl
  | cons a l ih =>
      rw [List.mapM_cons, h a (List.mem_cons_self a l),
        ih (fun x hx => h x (List.mem_cons_of_mem a hx))]
      rfl

theorem dlookup_map_val {α β : Type} (F : α → β) (eb : List (String × α))
    (k : String) :
    dlookup (eb.map (fun kv => (kv.1, F kv.2))) k = (dlookup eb k).map F := by
  induction eb with
  | nil => simp [dlookup]
  | cons p rest ih =>
      by_cases h : p.1 = k <;> simp [dlookup, h, ih]

theorem getD_map_range {α : Type} (f : ℕ → α) (bs i : ℕ) (h : i < bs) (d : α) :
    ((List.range bs).map f).getD i d = f i := by
  simp [List.getElem?_range h]

theorem epDraw_lt (eb : EpisodeBatch) (gE : ℕ → ℕ) (i : ℕ)
    (h0 : 0 < (dget eb "ac" []).length) :
    epDraw eb gE i < (dget eb "ac" []).length :=
  Nat.mod_lt _ h0

theorem tDraw_lt (eb : EpisodeBatch) (gE gT : ℕ → ℕ) (i : ℕ)
    (h0 : 0 < (dget eb "ac" []).length)
    (hlen : ∀ j < (dget eb "ac" []).length, 0 < acLen eb j) :
    tDraw eb gE gT i < acLen eb (epDraw eb gE i) :=
  Nat.mod_lt _ (hlen _ (epDraw_lt eb gE i h0))

theorem epIdxs_run (eb : EpisodeBatch) (bs : ℕ) (gE : ℕ → ℕ)
    (h0 : 0 < (dget eb "ac" []).length) :
    (List.range bs).mapM
        (fun i => randint 0 (dget eb "ac" []).length (gE i))
      = some ((List.range bs).map (epDraw eb gE)) := by
  apply mapM_option_some
  intro i _
  simp [randint, h0, epDraw]

theorem tSamples_run (eb : EpisodeBatch) (bs : ℕ) (gE gT : ℕ → ℕ)
    (h0 : 0 < (dget eb "ac" []).length)
    (hlen : ∀ j < (dget eb "ac" []).length, 0 < acLen eb j) :
    (List.range bs).mapM
        (fun i => randint 0
          ((dget eb "ac" []).getD
            (((List.range bs).map (epDraw eb gE)).getD i 0) []).length
          (gT i))
      = some ((List.range bs).map (tDraw eb gE gT)) := by
  apply mapM_option_some
  intro i hi
  rw [getD_map_range _ _ _ (List.mem_range.mp hi)]
  have h2 : 0 < acLen eb (epDraw eb gE i) := hlen _ (epDraw_lt eb gE i h0)
  show randint 0 (acLen eb (epDraw eb gE i)) (gT i)
      = some (tDraw eb gE gT i)
  simp [randint, h2, tDraw]

/-- Successful run of `RandomSampler.sample_func` in closed form. -/
theorem sample_func_run (eb : EpisodeBatch) (bs : ℕ) (gE gT : ℕ → ℕ)
    (h0 : 0 < (dget eb "ac" []).length)
    (hlen : ∀ j < (dget eb "ac" []).length, 0 < acLen eb j) :
    RandomSampler.sample_func eb bs gE gT
      = some (dset (gatherOut eb bs gE gT) "ob_next" (obNextOut eb bs gE gT)) := by
  simp only [RandomSampler.sample_func]
  rw [epIdxs_run eb bs gE h0]
  simp only [Option.bind_eq_bind, Option.some_bind]
  rw [tSamples_run eb bs gE gT h0 hlen]
  simp only [Option.some_bind]
  rw [List.zip_map']
  rfl

/-- `LearnedRewardReplayBuffer.sample` runs the duplicated uniform
sampling verbatim and then extends the batch with the `"rew"` entry:
it equals `RandomSampler.sample_func` mapped through that extension,
for every input (both fail together, and on success every key except
`"rew"` is untouched). -/
theorem lr_sample_eq_map (rew : List Val → List Val → List ℚ)
    (eb : EpisodeBatch) (bs : ℕ) (gE gT : ℕ → ℕ) :
    LearnedRewardReplayBuffer.sample rew eb bs gE gT
      = (RandomSampler.sample_func eb bs gE gT).map
          (fun o => dset o "rew" (lrRews rew o)) := by
  simp only [LearnedRewardReplayBuffer.sample, RandomSampler.sample_func]
  cases h1 : (List.range bs).mapM
      (fun i => randint 0 (dget eb "ac" []).length (gE i)) with
  | none => rfl
  | some epIdxs =>
      simp only [Option.bind_eq_bind, Option.some_bind]
      cases h2 : (List.range bs).mapM
          (fun i => randint 0
            ((dget eb "ac" []).getD (epIdxs.getD i 0) []).length (gT i)) with
      | none => rfl
      | some ts => rfl

/-- Successful run of `HERSampler.sample_her_transitions` in closed
form. -/
theorem sample_her_run (reward_func : Val → Val → Option Val → ℚ)
    (fp : ℚ) (eb : EpisodeBatch) (bs : ℕ) (gE gT : ℕ → ℕ) (gU : ℕ → ℚ)
    (gF : ℕ → ℕ) (h0 : 0 < (dget eb "ac" []).length)
    (hlen : ∀ j < (dget eb "ac" []).length, 0 < acLen eb j) :
    HERSampler.sample_her_transitions reward_func fp eb bs gE gT gU gF
      = some (herOut reward_func fp eb bs gE gT gU gF) := by
  simp only [HERSampler.sample_her_transitions]
  rw [epIdxs_run eb bs gE h0]
  simp only [Option.bind_eq_bind, Option.some_bind]
  rw [tSamples_run eb bs gE gT h0 hlen]
  simp only [Option.some_bind]
  rw [List.zip_map']
  have hpairs : ((List.range bs).map
      (fun a => (epDraw eb gE a, tDraw eb gE gT a))).length = bs := by
    rw [List.length_map, List.length_range]
  rw [hpairs]
  rw [mapM_option_some _ (herG reward_func fp eb bs gE gT gU gF)
    (List.range bs)]
  · simp only [Option.some_bind]
    rfl
  · intro i hi
    have hi' : i < bs := List.mem_range.mp hi
    rw [getD_map_range _ _ _ hi']
    by_cases hrep : gU i < fp
    · rw [if_pos hrep]
      have ht : tDraw eb gE gT i < acLen eb (epDraw eb gE i) :=
        tDraw_lt eb gE gT i h0 hlen
      have hftv : randint (tDraw eb gE gT i + 1)
          (((dget eb "ac" []).getD (epDraw eb gE i) []).length + 1) (gF i)
          = some (ftDraw eb gE gT gF i) := by
        have hlt : tDraw eb gE gT i + 1
            < ((dget eb "ac" []).getD (epDraw eb gE i) []).length + 1 :=
          Nat.succ_lt_succ ht
        simp only [randint, if_pos hlt]
        rw [Nat.succ_sub_succ]
        rfl
      rw [hftv]
      simp only [Option.bind_eq_bind, Option.some_bind]
      by_cases hr : reward_func
          (((dget eb "ag" []).getD (epDraw eb gE i) []).getD
            (tDraw eb gE gT i) (Val.num 0))
          (((dget eb "ag" []).getD (epDraw eb gE i) []).getD
            (ftDraw eb gE gT gF i) (Val.num 0)) none < 0
      · rw [if_pos hr]
        have hcond : gU i < fp ∧
            reward_func (agAt eb (epDraw eb gE i) (tDraw eb gE gT i))
              (agAt eb (epDraw eb gE i) (ftDraw eb gE gT gF i)) none < 0 :=
          ⟨hrep, hr⟩
        simp only [herG, if_pos hcond]
        rfl
      · rw [if_neg hr]
        have hcond : ¬ (gU i < fp ∧
            reward_func (agAt eb (epDraw eb gE i) (tDraw eb gE gT i))
              (agAt eb (epDraw eb gE i) (ftDraw eb gE gT gF i)) none < 0) :=
          fun hc => hr hc.2
        simp only [herG, if_neg hcond]
        rfl
    · rw [if_neg hrep]
      have hcond : ¬ (gU i < fp ∧
          reward_func (agAt eb (epDraw eb gE i) (tDraw eb gE gT i))
            (agAt eb (epDraw eb gE i) (ftDraw eb gE gT gF i)) none < 0) :=
        fun hc => hrep hc.1
      simp only [herG, if_neg hcond]
      rfl

/-! ## Buffer write-loop lemmas -/

theorem writeKeys_cons (buf : List (String × List (List Val)))
    (k0 : String) (Ks : List String)
    (F : String → List (List Val) → List (List Val)) :
    ReplayBuffer.writeKeys buf (k0 :: Ks) F
      = ReplayBuffer.writeKeys (ddUpdate buf k0 (F k0)) Ks F := rfl

theorem dlookup_writeKeys_not_mem (buf : List (String × List (List Val)))
    (Ks : List String) (F : String → List (List Val) → List (List Val))
    (k : String) (hk : k ∉ Ks) :
    dlookup (ReplayBuffer.writeKeys buf Ks F) k = dlookup buf k := by
  induction Ks generalizing buf with
  | nil => rfl
  | cons k0 Ks ih =>
      have hk0 : k ≠ k0 := fun h => hk (h ▸ List.mem_cons_self k0 Ks)
      have hkt : k ∉ Ks := fun h => hk (List.mem_cons_of_mem k0 h)
      rw [writeKeys_cons, ih _ hkt, dlookup_ddUpdate_ne _ _ _ _ hk0]

theorem dget_writeKeys_mem (buf : List (String × List (List Val)))
    (Ks : List String) (F : String → List (List Val) → List (List Val))
    (k : String) (hK : Ks.Nodup) (hk : k ∈ Ks) :
    dget (ReplayBuffer.writeKeys buf Ks F) k []
      = F k (dget buf k []) := by
  induction Ks generalizing buf with
  | nil => cases hk
  | cons k0 Ks ih =>
      rw [writeKeys_cons]
      by_cases h : k = k0
      · subst h
        have hnot : k ∉ Ks := (List.nodup_cons.mp hK).1
        rw [dget, dlookup_writeKeys_not_mem _ _ _ _ hnot,
          dlookup_ddUpdate_self]
        rfl
      · have hk' : k ∈ Ks := (List.mem_cons.mp hk).resolve_left h
        rw [ih _ (List.nodup_cons.mp hK).2 hk']
        have : dget (ddUpdate buf k0 (F k0)) k [] = dget buf k [] := by
          rw [dget, dlookup_ddUpdate_ne _ _ _ _ h]
          rfl
        rw [this]

theorem BufInv_init (N : ℕ) (Ks : List String) :
    BufInv N Ks 0 (ReplayBuffer.init N Ks) := by
  refine ⟨rfl, rfl, rfl, rfl, (Nat.zero_mod N).symm, ?_, ?_⟩
  · intro k _
    simp [dget, dlookup, ReplayBuffer.init, ReplayBuffer.clear]
  · intro k _
    rfl

/-- A successful episode-closing `store_episode` call, in closed form:
if the assertion passed and the final `done` flag is truthy, the call
returns the buffer with the per-key write applied, the cursor advanced
modulo the capacity, the size incremented, and the fresh-episode flag
set. -/
theorem store_episode_closing (b : Buffer) (r : Rollout) (d : Val)
    (u : Unit)
    (hac : ReplayBuffer.assertCheck (ReplayBuffer.writeBuf b r) b.idx
      = some u)
    (hd : (r "done").getLast? = some d) (ht : truthy d = true) :
    ReplayBuffer.store_episode b r = some { b with
      buf := ReplayBuffer.writeBuf b r,
      idx := (b.idx + 1) % b.size,
      current_size := b.current_size + 1,
      new_episode := true } := by
  simp only [ReplayBuffer.store_episode, hac, hd, ht, if_true]

theorem store_episode_step (N : ℕ) (hN : 0 < N) (Ks : List String)
    (hK : Ks.Nodup) (n : ℕ) (b b' : Buffer) (r : Rollout)
    (hb : BufInv N Ks n b)
    (hrun : ReplayBuffer.store_episode b r = some b')
    (d : Val) (hd : (r "done").getLast? = some d)
    (ht : truthy d = true) :
    BufInv N Ks (n + 1) b' := by
  obtain ⟨hsz, hks, hnew, hcs, hidx, hlen, hnone⟩ := hb
  have hwb : ReplayBuffer.writeBuf b r
      = ReplayBuffer.writeKeys b.buf Ks (fun k eps =>
          if b.current_size < b.size then eps ++ [r k]
          else eps.set b.idx (r k)) := by
    rw [ReplayBuffer.writeBuf, hnew, hks]
    simp
  cases hac : ReplayBuffer.assertCheck (ReplayBuffer.writeBuf b r) b.idx with
  | none =>
      simp only [ReplayBuffer.store_episode, hac] at hrun
      exact Option.noConfusion hrun
  | some u =>
      rw [store_episode_closing b r d u hac hd ht] at hrun
      have hb' : b' = { b with
          buf := ReplayBuffer.writeBuf b r,
          idx := (b.idx + 1) % b.size,
          current_size := b.current_size + 1,
          new_episode := true } := by
        cases hrun
        rfl
      subst hb'
      refine ⟨hsz, hks, rfl, by rw [hcs], ?_, ?_, ?_⟩
      · show (b.idx + 1) % b.size = (n + 1) % N
        rw [hidx, hsz, Nat.mod_add_mod]
      · intro k hk
        show (dget (ReplayBuffer.writeBuf b r) k []).length = min (n + 1) N
        rw [hwb, dget_writeKeys_mem _ _ _ _ hK hk, hcs, hsz]
        by_cases hlt : n < N
        · rw [if_pos hlt, List.length_append, hlen k hk,
            Nat.min_eq_left (Nat.le_of_lt hlt),
            Nat.min_eq_left (Nat.succ_le_of_lt hlt)]
          simp
        · rw [if_neg hlt, List.length_set, hlen k hk]
          have hge : N ≤ n := Nat.le_of_not_lt hlt
          rw [Nat.min_eq_right hge, Nat.min_eq_right (Nat.le_succ_of_le hge)]
      · intro k hk
        show dlookup (ReplayBuffer.writeBuf b r) k = none
        rw [hwb, dlookup_writeKeys_not_mem _ _ _ _ hk]
        exact hnone k hk

theorem storeAll_inv (N : ℕ) (hN : 0 < N) (Ks : List String)
    (hK : Ks.Nodup) (rs : List Rollout)
    (hclose : ∀ r ∈ rs, ∃ d, (r "done").getLast? = some d ∧
      truthy d = true)
    (n : ℕ) (b b' : Buffer) (hb : BufInv N Ks n b)
    (hrun : ReplayBuffer.storeAll b rs = some b') :
    BufInv N Ks (n + rs.length) b' := by
  induction rs generalizing n b with
  | nil =>
      cases hrun
      simpa using hb
  | cons r rs ih =>
      rw [ReplayBuffer.storeAll, List.foldlM_cons] at hrun
      cases h1 : ReplayBuffer.store_episode b r with
      | none => rw [h1] at hrun; cases hrun
      | some b1 =>
          rw [h1] at hrun
          obtain ⟨d, hd, ht⟩ := hclose r (List.mem_cons_self r rs)
          have hb1 : BufInv N Ks (n + 1) b1 :=
            store_episode_step N hN Ks hK n b b1 r hb h1 d hd ht
          have hout := ih (fun r hr => hclose r (List.mem_cons_of_mem _ hr))
            (n + 1) b1 hb1 hrun
          have harith : n + (r :: rs).length = n + 1 + rs.length := by
            simp only [List.length_cons]
            omega
          rw [harith]
          exact hout

/-! ## Claim C1 -/

/-- **C1, counterexample.**  The claim asserts that `current_size`
never exceeds the capacity (saturating there) and that the per-key
slot count never exceeds the capacity, over every sequence of
`store_episode` calls.  Both parts fail on the code: on a buffer of
capacity `1`, two episode-closing stores leave `current_size = 2`
(the source increments `self._current_size` with no cap), and two
non-closing stores (final `done` falsy, so the cursor never advances
and the size never increments while `_new_episode` remains `True`)
leave two stored slots under every key. -/
theorem store_episode_capacity_counterexample :
    (ReplayBuffer.storeAll (ReplayBuffer.init 1 KS4) [rollC, rollC]).map
        Buffer.current_size = some 2 ∧
    ¬ (2 ≤ 1) ∧
    (ReplayBuffer.storeAll (ReplayBuffer.init 1 KS4) [rollN, rollN]).map
        (fun b => (dget b.buf "ac" []).length) = some 2 := by
  refine ⟨rfl, by decide, rfl⟩

/-- **C1** (amended).  For every sequence of episode-closing
`store_episode` calls (each rollout's final `done` flag truthy) on a
buffer initialised with capacity `N ≥ 1` and distinct keys:
`current_size` equals the number of episodes stored — it is not capped
and exceeds `N` beyond `N` episodes — while the number of stored
episode slots per key never exceeds `N` (for tracked keys it is
exactly `min(#episodes, N)`), the cursor sits at `#episodes mod N`,
and once at least `N` episodes are stored, a further episode-closing
call overwrites the slot at the cursor index and advances the cursor
modulo `N`. -/
theorem store_episode_capacity (N : ℕ) (hN : 0 < N) (Ks : List String)
    (hK : Ks.Nodup) (rs : List Rollout)
    (hclose : ∀ r ∈ rs, ∃ d, (r "done").getLast? = some d ∧
      truthy d = true)
    (b : Buffer)
    (hrun : ReplayBuffer.storeAll (ReplayBuffer.init N Ks) rs = some b) :
    b.current_size = rs.length ∧
    b.idx = rs.length % N ∧
    (∀ k, (dget b.buf k []).length ≤ N) ∧
    (∀ k ∈ Ks, (dget b.buf k []).length = min rs.length N) ∧
    (∀ r b' d, N ≤ rs.length →
      (r "done").getLast? = some d → truthy d = true →
      ReplayBuffer.store_episode b r = some b' →
      b'.idx = (b.idx + 1) % N ∧
      (∀ k ∈ Ks, dget b'.buf k [] = (dget b.buf k []).set b.idx (r k) ∧
        (dget b'.buf k []).get? b.idx = some (r k))) := by
  have hinv : BufInv N Ks (0 + rs.length) b :=
    storeAll_inv N hN Ks hK rs hclose 0 (ReplayBuffer.init N Ks) b
      (BufInv_init N Ks) hrun
  rw [Nat.zero_add] at hinv
  obtain ⟨hsz, hks, hnew, hcs, hidx, hlen, hnone⟩ := hinv
  refine ⟨hcs, hidx, ?_, hlen, ?_⟩
  · intro k
    by_cases hk : k ∈ Ks
    · rw [hlen k hk]
      exact Nat.min_le_right _ _
    · rw [dget, hnone k hk]
      exact Nat.zero_le _
  · intro r b' d hge hd ht hstep
    have hwb : ReplayBuffer.writeBuf b r
        = ReplayBuffer.writeKeys b.buf Ks (fun k eps =>
            if b.current_size < b.size then eps ++ [r k]
            else eps.set b.idx (r k)) := by
      rw [ReplayBuffer.writeBuf, hnew, hks]
      simp
    cases hac : ReplayBuffer.assertCheck (ReplayBuffer.writeBuf b r)
        b.idx with
    | none =>
        simp only [ReplayBuffer.store_episode, hac] at hstep
        exact Option.noConfusion hstep
    | some u =>
        rw [store_episode_closing b r d u hac hd ht] at hstep
        cases hstep
        have hnot : ¬ (b.current_size < b.size) := by
          rw [hcs, hsz]
          exact Nat.not_lt.mpr hge
        constructor
        · show (b.idx + 1) % b.size = (b.idx + 1) % N
          rw [hsz]
        · intro k hk
          have hset : dget (ReplayBuffer.writeBuf b r) k []
              = (dget b.buf k []).set b.idx (r k) := by
            rw [hwb, dget_writeKeys_mem _ _ _ _ hK hk, if_neg hnot]
          refine ⟨hset, ?_⟩
          show (dget (ReplayBuffer.writeBuf b r) k []).get? b.idx
              = some (r k)
          rw [hset, List.get?_eq_getElem?]
          have hidxlt : b.idx < (dget b.buf k []).length := by
            rw [hlen k hk, hidx, Nat.min_eq_right hge]
            exact Nat.mod_lt _ hN
          rw [List.getElem?_set_self hidxlt]

/-- **C1, witness.**  A concrete run of the amended claim: capacity
`1`, two episode-closing stores; the final size is `2` and the second
store overwrote the single slot at cursor `0`. -/
theorem store_episode_capacity_witness :
    (ReplayBuffer.storeAll (ReplayBuffer.init 1 KS4) [rollC, rollC]).map
      Buffer.current_size
      = some ([rollC, rollC] : List Rollout).length := by
  have h := store_episode_capacity 1 (by decide) KS4 (by decide)
    [rollC, rollC]
    (by
      intro r hr
      rcases List.mem_cons.mp hr with h1 | h1
      · subst h1
        exact ⟨Val.num 1, rfl, rfl⟩
      · rcases List.mem_cons.mp h1 with h2 | h2
        · subst h2
          exact ⟨Val.num 1, rfl, rfl⟩
        · cases h2)
    ⟨1, KS4, 0, 2, true,
      [("ob", [[Val.num 0, Val.num 0]]), ("ac", [[Val.num 0]]),
       ("rew", [[Val.num 0]]), ("done", [[Val.num 1]])]⟩ rfl
  rw [show ReplayBuffer.storeAll (ReplayBuffer.init 1 KS4)
      [rollC, rollC]
      = some ⟨1, KS4, 0, 2, true,
          [("ob", [[Val.num 0, Val.num 0]]), ("ac", [[Val.num 0]]),
           ("rew", [[Val.num 0]]), ("done", [[Val.num 1]])]⟩ from rfl]
  rw [Option.map_some']
  rw [h.1]

/-! ## Claim C4 machinery: the ingestion contract keeps the assertion
quiet -/

theorem KS4_nodup : KS4.Nodup := by decide

theorem dlookup_writeKeys_mem (buf : List (String × List (List Val)))
    (Ks : List String) (F : String → List (List Val) → List (List Val))
    (k : String) (hK : Ks.Nodup) (hk : k ∈ Ks) :
    dlookup (ReplayBuffer.writeKeys buf Ks F) k
      = some (F k (dget buf k [])) := by
  induction Ks generalizing buf with
  | nil => cases hk
  | cons k0 Ks ih =>
      rw [writeKeys_cons]
      by_cases h : k = k0
      · subst h
        have hnot : k ∉ Ks := (List.nodup_cons.mp hK).1
        rw [dlookup_writeKeys_not_mem _ _ _ _ hnot, dlookup_ddUpdate_self]
      · have hk' : k ∈ Ks := (List.mem_cons.mp hk).resolve_left h
        rw [ih _ (List.nodup_cons.mp hK).2 hk']
        have : dget (ddUpdate buf k0 (F k0)) k [] = dget buf k [] := by
          rw [dget, dlookup_ddUpdate_ne _ _ _ _ h]
          rfl
        rw [this]

theorem Inv4_init (N : ℕ) (hN : 0 < N) :
    Inv4 N (ReplayBuffer.init N KS4) := by
  refine ⟨rfl, rfl, rfl, hN, 0, ?_, ?_, Nat.le_refl 0, ?_, ?_, ?_, ?_⟩
  · intro k _
    rfl
  · simp [ReplayBuffer.init, ReplayBuffer.clear]
  · intro h
    exact absurd h (by simpa [ReplayBuffer.init, ReplayBuffer.clear]
      using Nat.not_le.mpr hN)
  · intro j o a ho _
    cases ho
  · intro j w a hw _
    cases hw
  · intro j dn a hdn _
    cases hdn

theorem getSlot_append (old : List (List Val)) (x : List Val) (L j : ℕ)
    (hL : old.length = L) :
    (old ++ [x]).get? j
      = if j < L then old.get? j else if j = L then some x else none := by
  by_cases h1 : j < L
  · rw [if_pos h1, List.get?_eq_getElem?, List.get?_eq_getElem?,
      List.getElem?_append_left (by rw [hL]; exact h1)]
  · rw [if_neg h1]
    by_cases h2 : j = L
    · subst h2
      rw [if_pos rfl, List.get?_eq_getElem?, ← hL,
        List.getElem?_concat_length]
    · rw [if_neg h2]
      have hgt : L < j := Nat.lt_of_le_of_ne (Nat.le_of_not_lt h1)
        (fun h => h2 h.symm)
      rw [List.get?_eq_getElem?, List.getElem?_eq_none]
      rw [List.length_append, hL]
      simpa using hgt

theorem getSlot_set (old : List (List Val)) (x : List Val) (L i j : ℕ)
    (hL : old.length = L) (hi : i < L) :
    (old.set i x).get? j = if j = i then some x else old.get? j := by
  by_cases h : j = i
  · subst h
    rw [if_pos rfl, List.get?_eq_getElem?,
      List.getElem?_set_self (by rw [hL]; exact hi)]
  · rw [if_neg h, List.get?_eq_getElem?, List.get?_eq_getElem?,
      List.getElem?_set_ne (fun hh => h hh.symm)]

theorem succ_mod_of_lt (i N : ℕ) (h : i < N) :
    (i + 1) % N = if i + 1 = N then 0 else i + 1 := by
  by_cases h2 : i + 1 = N
  · rw [if_pos h2, h2, Nat.mod_self]
  · rw [if_neg h2, Nat.mod_eq_of_lt (Nat.lt_of_le_of_ne h h2)]

theorem slotRel_append (l1 l2 : List (List Val)) (x1 x2 : List Val)
    (L : ℕ) (h1 : l1.length = L) (h2 : l2.length = L)
    (P : List Val → List Val → Prop)
    (hold : ∀ j o a, l1.get? j = some o → l2.get? j = some a → P o a)
    (hnew : P x1 x2) :
    ∀ j o a, (l1 ++ [x1]).get? j = some o →
      (l2 ++ [x2]).get? j = some a → P o a := by
  intro j o a ho ha
  rw [getSlot_append _ _ L j h1] at ho
  rw [getSlot_append _ _ L j h2] at ha
  by_cases hj : j < L
  · rw [if_pos hj] at ho ha
    exact hold j o a ho ha
  · rw [if_neg hj] at ho ha
    by_cases hj2 : j = L
    · rw [if_pos hj2] at ho ha
      cases ho
      cases ha
      exact hnew
    · rw [if_neg hj2] at ho
      cases ho

theorem slotRel_set (l1 l2 : List (List Val)) (x1 x2 : List Val)
    (L i : ℕ) (h1 : l1.length = L) (h2 : l2.length = L) (hi : i < L)
    (P : List Val → List Val → Prop)
    (hold : ∀ j o a, l1.get? j = some o → l2.get? j = some a → P o a)
    (hnew : P x1 x2) :
    ∀ j o a, (l1.set i x1).get? j = some o →
      (l2.set i x2).get? j = some a → P o a := by
  intro j o a ho ha
  rw [getSlot_set _ _ L i j h1 hi] at ho
  rw [getSlot_set _ _ L i j h2 hi] at ha
  by_cases hj : j = i
  · rw [if_pos hj] at ho ha
    cases ho
    cases ha
    exact hnew
  · rw [if_neg hj] at ho ha
    exact hold j o a ho ha

/-- A successful non-closing `store_episode` call: the buffer write is
applied but cursor, size and flag stay as they were. -/
theorem store_episode_nonclosing (b : Buffer) (r : Rollout) (d : Val)
    (u : Unit)
    (hac : ReplayBuffer.assertCheck (ReplayBuffer.writeBuf b r) b.idx
      = some u)
    (hd : (r "done").getLast? = some d) (ht : truthy d = false) :
    ReplayBuffer.store_episode b r
      = some { b with buf := ReplayBuffer.writeBuf b r } := by
  simp only [ReplayBuffer.store_episode, hac, hd, ht, Bool.false_eq_true,
    if_false]

theorem store_episode_total (N : ℕ) (hN : 0 < N) (b : Buffer)
    (r : Rollout) (hb : Inv4 N b) (hc : Contract r) :
    ∃ b', ReplayBuffer.store_episode b r = some b' ∧ Inv4 N b' := by
  obtain ⟨hsz, hks, hnew, hidxN, L, hL, hminL, hidxL, hstrict,
    hob, hrew, hdone⟩ := hb
  obtain ⟨hac1, hob1, hrew1, hdone1⟩ := hc
  have hmob : "ob" ∈ KS4 := by decide
  have hmac : "ac" ∈ KS4 := by decide
  have hmrew : "rew" ∈ KS4 := by decide
  have hmdone : "done" ∈ KS4 := by decide
  have hwb : ReplayBuffer.writeBuf b r
      = ReplayBuffer.writeKeys b.buf KS4 (fun k eps =>
          if b.current_size < b.size then eps ++ [r k]
          else eps.set b.idx (r k)) := by
    rw [ReplayBuffer.writeBuf, hnew, hks]
    simp
  have hget : ∀ k ∈ KS4, dget (ReplayBuffer.writeBuf b r) k []
      = if b.current_size < b.size then dget b.buf k [] ++ [r k]
        else (dget b.buf k []).set b.idx (r k) := by
    intro k hk
    rw [hwb, dget_writeKeys_mem _ _ _ _ KS4_nodup hk]
  have hlook : dlookup (ReplayBuffer.writeBuf b r) "ac"
      = some (if b.current_size < b.size then dget b.buf "ac" [] ++ [r "ac"]
        else (dget b.buf "ac" []).set b.idx (r "ac")) := by
    rw [hwb, dlookup_writeKeys_mem _ _ _ _ KS4_nodup hmac]
  have hnotlt : ¬ b.current_size < b.size → b.idx < L := fun h =>
    hstrict (hsz ▸ Nat.le_of_not_lt h)
  have hLen2 : ∀ k ∈ KS4, (dget (ReplayBuffer.writeBuf b r) k []).length
      = if b.current_size < b.size then L + 1 else L := by
    intro k hk
    rw [hget k hk]
    by_cases hcs : b.current_size < b.size
    · rw [if_pos hcs, if_pos hcs, List.length_append, hL k hk]
      rfl
    · rw [if_neg hcs, if_neg hcs, List.length_set, hL k hk]
  have hSlot' : SlotInv (ReplayBuffer.writeBuf b r) := by
    refine ⟨?_, ?_, ?_⟩
    · rw [hget "ob" hmob, hget "ac" hmac]
      by_cases hcs : b.current_size < b.size
      · rw [if_pos hcs, if_pos hcs]
        exact slotRel_append _ _ _ _ L (hL "ob" hmob) (hL "ac" hmac)
          (fun o a => o.length = a.length + 1) hob hob1
      · rw [if_neg hcs, if_neg hcs]
        exact slotRel_set _ _ _ _ L b.idx (hL "ob" hmob) (hL "ac" hmac)
          (hnotlt hcs) (fun o a => o.length = a.length + 1) hob hob1
    · rw [hget "rew" hmrew, hget "ac" hmac]
      by_cases hcs : b.current_size < b.size
      · rw [if_pos hcs, if_pos hcs]
        exact slotRel_append _ _ _ _ L (hL "rew" hmrew) (hL "ac" hmac)
          (fun w a => w.length = a.length) hrew hrew1
      · rw [if_neg hcs, if_neg hcs]
        exact slotRel_set _ _ _ _ L b.idx (hL "rew" hmrew) (hL "ac" hmac)
          (hnotlt hcs) (fun w a => w.length = a.length) hrew hrew1
    · rw [hget "done" hmdone, hget "ac" hmac]
      by_cases hcs : b.current_size < b.size
      · rw [if_pos hcs, if_pos hcs]
        exact slotRel_append _ _ _ _ L (hL "done" hmdone) (hL "ac" hmac)
          (fun dn a => dn.length = a.length) hdone hdone1
      · rw [if_neg hcs, if_neg hcs]
        exact slotRel_set _ _ _ _ L b.idx (hL "done" hmdone) (hL "ac" hmac)
          (hnotlt hcs) (fun dn a => dn.length = a.length) hdone hdone1
  have hidxL' : b.idx < (dget (ReplayBuffer.writeBuf b r) "ob" []).length := by
    rw [hLen2 "ob" hmob]
    by_cases hcs : b.current_size < b.size
    · rw [if_pos hcs]
      exact Nat.lt_succ_of_le hidxL
    · rw [if_neg hcs]
      exact hnotlt hcs
  have hidxLac : b.idx
      < (dget (ReplayBuffer.writeBuf b r) "ac" []).length := by
    rw [hLen2 "ac" hmac, ← hLen2 "ob" hmob]
    exact hidxL'
  have h1 : (dget (ReplayBuffer.writeBuf b r) "ob" []).get? b.idx
      = some ((dget (ReplayBuffer.writeBuf b r) "ob" []).get
          ⟨b.idx, hidxL'⟩) := List.get?_eq_get hidxL'
  have h2 : (dget (ReplayBuffer.writeBuf b r) "ac" []).get? b.idx
      = some ((dget (ReplayBuffer.writeBuf b r) "ac" []).get
          ⟨b.idx, hidxLac⟩) := List.get?_eq_get hidxLac
  have hassert : ReplayBuffer.assertCheck (ReplayBuffer.writeBuf b r)
      b.idx = some () := by
    unfold ReplayBuffer.assertCheck
    rw [hlook]
    simp only [Option.isSome_some, if_true]
    rw [h1, h2]
    exact if_pos (hSlot'.1 b.idx _ _ h1 h2)
  have hdne : r "done" ≠ [] := by
    apply List.ne_nil_of_length_pos
    omega
  obtain ⟨d, hd⟩ :=
    Option.isSome_iff_exists.mp (List.getLast?_isSome.mpr hdne)
  by_cases htr : truthy d = true
  · refine ⟨_, store_episode_closing b r d () hassert hd htr,
      hsz, hks, rfl, ?_, (if b.current_size < b.size then L + 1 else L),
      hLen2, ?_, ?_, ?_, hSlot'⟩
    · show (b.idx + 1) % b.size < N
      rw [hsz]
      exact Nat.mod_lt _ hN
    · show min (b.current_size + 1) N
        ≤ if b.current_size < b.size then L + 1 else L
      rw [hsz] at *
      by_cases hcs : b.current_size < N
      · rw [if_pos hcs]
        omega
      · rw [if_neg hcs]
        omega
    · show (b.idx + 1) % b.size
        ≤ if b.current_size < b.size then L + 1 else L
      rw [hsz] at *
      have hm1 : (b.idx + 1) % N ≤ b.idx + 1 := Nat.mod_le _ _
      have hm2 : (b.idx + 1) % N < N := Nat.mod_lt _ hN
      by_cases hcs : b.current_size < N
      · rw [if_pos hcs]
        omega
      · rw [if_neg hcs]
        omega
    · show N ≤ b.current_size + 1 →
        (b.idx + 1) % b.size
          < if b.current_size < b.size then L + 1 else L
      rw [hsz] at *
      intro hge
      rw [succ_mod_of_lt b.idx N hidxN]
      by_cases heq : b.idx + 1 = N
      · rw [if_pos heq]
        by_cases hcs : b.current_size < N
        · rw [if_pos hcs]
          omega
        · rw [if_neg hcs]
          omega
      · rw [if_neg heq]
        by_cases hcs : b.current_size < N
        · rw [if_pos hcs]
          omega
        · rw [if_neg hcs]
          omega
  · have htr' : truthy d = false := by
      revert htr
      cases truthy d <;> simp
    refine ⟨_, store_episode_nonclosing b r d () hassert hd htr',
      hsz, hks, hnew, hidxN, (if b.current_size < b.size then L + 1 else L),
      hLen2, ?_, ?_, ?_, hSlot'⟩
    · show min b.current_size N
        ≤ if b.current_size < b.size then L + 1 else L
      rw [hsz] at *
      by_cases hcs : b.current_size < N
      · rw [if_pos hcs]
        omega
      · rw [if_neg hcs]
        omega
    · show b.idx ≤ if b.current_size < b.size then L + 1 else L
      rw [hsz] at *
      by_cases hcs : b.current_size < N
      · rw [if_pos hcs]
        omega
      · rw [if_neg hcs]
        have := hnotlt (by rw [hsz]; exact hcs)
        omega
    · show N ≤ b.current_size →
        b.idx < if b.current_size < b.size then L + 1 else L
      rw [hsz] at *
      intro hge
      have := hstrict (by rw [hsz]; omega)
      by_cases hcs : b.current_size < N
      · rw [if_pos hcs]
        omega
      · rw [if_neg hcs]
        omega

theorem storeAll_total (N : ℕ) (hN : 0 < N) (rs : List Rollout)
    (hc : ∀ r ∈ rs, Contract r) (b : Buffer) (hb : Inv4 N b) :
    ∃ b', ReplayBuffer.storeAll b rs = some b' ∧ Inv4 N b' := by
  induction rs generalizing b with
  | nil => exact ⟨b, rfl, hb⟩
  | cons r rs ih =>
      obtain ⟨b1, h1, hb1⟩ := store_episode_total N hN b r hb
        (hc r (List.mem_cons_self r rs))
      obtain ⟨b', h2, hb'⟩ :=
        ih (fun x hx => hc x (List.mem_cons_of_mem _ hx)) b1 hb1
      refine ⟨b', ?_, hb'⟩
      rw [ReplayBuffer.storeAll, List.foldlM_cons, h1]
      simpa [ReplayBuffer.storeAll] using h2

/-! ## Claim C4 -/

/-- **C4.**  Every sequence of `store_episode` calls made under the
ingestion contract (`ob` of length `T + 1`, `ac`, `rew`, `done` of
length `T ≥ 1`) on a fresh buffer tracking `ob/ac/rew/done` completes
without error — in particular the integrity assertion never fires —
and afterwards every stored episode slot satisfies
`len(ob) = len(ac) + 1` and `len(rew) = len(done) = len(ac)`.
(Since `_new_episode` is never cleared in the source, every such call
takes the fresh-slot branch; the mid-episode step-append, which drops
the duplicated leading observation, also preserves these top-level
lengths but is dead code.) -/
theorem store_episode_length_invariant (N : ℕ) (hN : 0 < N)
    (rs : List Rollout) (hc : ∀ r ∈ rs, Contract r) :
    ∃ b, ReplayBuffer.storeAll (ReplayBuffer.init N KS4) rs = some b ∧
      (∀ j o a, (dget b.buf "ob" []).get? j = some o →
        (dget b.buf "ac" []).get? j = some a → o.length = a.length + 1) ∧
      (∀ j w a, (dget b.buf "rew" []).get? j = some w →
        (dget b.buf "ac" []).get? j = some a → w.length = a.length) ∧
      (∀ j dn a, (dget b.buf "done" []).get? j = some dn →
        (dget b.buf "ac" []).get? j = some a → dn.length = a.length) := by
  obtain ⟨b, hrun, hinv⟩ :=
    storeAll_total N hN rs hc _ (Inv4_init N hN)
  obtain ⟨_, _, _, _, L, _, _, _, _, hslot⟩ := hinv
  exact ⟨b, hrun, hslot.1, hslot.2.1, hslot.2.2⟩

/-- **C4, witness.**  The contract run of two one-step episodes on a
capacity-1 buffer completes (no assertion failure). -/
theorem store_episode_length_invariant_witness :
    (ReplayBuffer.storeAll (ReplayBuffer.init 1 KS4)
      [rollC, rollC]).isSome = true := by
  obtain ⟨b, hrun, _⟩ := store_episode_length_invariant 1 (by decide)
    [rollC, rollC]
    (by
      intro r hr
      rcases List.mem_cons.mp hr with h1 | h1
      · subst h1
        exact ⟨by decide, by decide, by decide, by decide⟩
      · rcases List.mem_cons.mp h1 with h2 | h2
        · subst h2
          exact ⟨by decide, by decide, by decide, by decide⟩
        · cases h2)
  rw [hrun]
  rfl

/-! ## Claims C8 and C10: `state_dict` / `load_state_dict` -/

/-- **C8.**  Restoring a buffer from its own snapshot
(`load_state_dict(state_dict())`) reproduces the per-key episode
contents exactly and sets `current_size` to the loaded action-sequence
count `len(buffer["ac"])`. -/
theorem state_dict_roundtrip (b : Buffer) :
    (ReplayBuffer.load_state_dict b (ReplayBuffer.state_dict b)).buf
      = b.buf ∧
    (ReplayBuffer.load_state_dict b (ReplayBuffer.state_dict b)).current_size
      = (dget b.buf "ac" []).length :=
  ⟨rfl, rfl⟩

/-- **C10.**  `load_state_dict` replaces only the buffer contents and
`current_size` (recomputed as `len(d["ac"])`); the write cursor `idx`
and the fresh-episode flag are untouched, as are the capacity and key
list — in particular, on a freshly constructed buffer the cursor stays
`0` after a restore. -/
theorem load_state_dict_frame (b : Buffer)
    (d : List (String × List (List Val))) :
    (ReplayBuffer.load_state_dict b d).idx = b.idx ∧
    (ReplayBuffer.load_state_dict b d).new_episode = b.new_episode ∧
    (ReplayBuffer.load_state_dict b d).size = b.size ∧
    (ReplayBuffer.load_state_dict b d).keys = b.keys ∧
    (ReplayBuffer.load_state_dict b d).buf = d ∧
    (ReplayBuffer.load_state_dict b d).current_size
      = (dget d "ac" []).length ∧
    (∀ N Ks, (ReplayBuffer.load_state_dict (ReplayBuffer.init N Ks) d).idx
      = 0) :=
  ⟨rfl, rfl, rfl, rfl, rfl, rfl, fun _ _ => rfl⟩

/-! ## Claim C5 -/

theorem mapM_option_isNone {α β : Type} (f : α → Option β) (l : List α)
    (a : α) (ha : a ∈ l) (hf : f a = none) : l.mapM f = none := by
  induction l with
  | nil => cases ha
  | cons x l ih =>
      rw [List.mapM_cons]
      rcases List.mem_cons.mp ha with h | h
      · subst h
        rw [hf]
        rfl
      · cases hx : f x with
        | none => rfl
        | some y =>
            rw [ih h]
            rfl

theorem selectDemos_eq_take (entries : List DirEntry) (n i : ℕ)
    (hi : i ≤ n) :
    selectDemos entries i n
      = ((entries.filter
          (fun e => e.is_file && pathEndsWith e.path "pkl")).map
            (fun e => e.path)).take (n + 1 - i) := by
  induction entries generalizing i with
  | nil => simp [selectDemos]
  | cons e rest ih =>
      simp only [selectDemos]
      by_cases hm : (e.is_file && pathEndsWith e.path "pkl") = true
      · rw [if_pos hm]
        by_cases hbreak : i + 1 > n
        · have hieq : i = n := by omega
          subst hieq
          rw [if_pos hbreak,
            @List.filter_cons_of_pos DirEntry
              (fun e => e.is_file && pathEndsWith e.path "pkl") e rest hm]
          have hsub : i + 1 - i = 1 := by omega
          rw [List.map_cons, hsub, List.take_succ_cons, List.take_zero]
        · rw [if_neg hbreak,
            @List.filter_cons_of_pos DirEntry
              (fun e => e.is_file && pathEndsWith e.path "pkl") e rest hm,
            List.map_cons]
          have h1 : n + 1 - i = (n + 1 - (i + 1)) + 1 := by omega
          rw [h1, List.take_succ_cons, ih (i + 1) (by omega)]
      · rw [if_neg hm, if_neg (by omega : ¬ i > n),
          @List.filter_cons_of_neg DirEntry
            (fun e => e.is_file && pathEndsWith e.path "pkl") e rest
            (by simpa using hm)]
        exact ih i hi

/-- **C5, counterexample.**  The claim asserts that `sample` on a
buffer holding zero episodes completes without error with an empty
result; in the source `np.random.randint(0, 0, batch_size)` raises
`ValueError: low >= high` (modelled by `none`) as soon as
`rollout_batch_size = 0`. -/
theorem empty_buffer_sample_counterexample :
    RandomSampler.sample_func (ReplayBuffer.init 5 KS4).buf 1
      (fun _ => 0) (fun _ => 0) = none := rfl

/-- **C5** (amended).  On a buffer with zero episodes,
`sample(batch_size ≥ 1)` raises (`np.random.randint` with an empty
range) instead of returning an empty batch; `load_demonstrations` on a
directory with zero matching files is a genuine no-op: the buffer is
returned unchanged and no error is raised. -/
theorem empty_buffer_sample_and_demos :
    (∀ (eb : EpisodeBatch) (bs : ℕ) (gE gT : ℕ → ℕ),
      dget eb "ac" [] = ([] : List (List Val)) → 1 ≤ bs →
      RandomSampler.sample_func eb bs gE gT = none) ∧
    (∀ (b : Buffer) (entries : List DirEntry) (read : String → Demo)
      (n : ℕ),
      entries.filter (fun e => e.is_file && pathEndsWith e.path "pkl")
        = [] →
      ReplayBuffer.load_demonstrations b entries read n = some b) := by
  constructor
  · intro eb bs gE gT h hbs
    simp only [RandomSampler.sample_func]
    rw [mapM_option_isNone _ (List.range bs) 0
      (List.mem_range.mpr (by omega)) (by rw [h]; rfl)]
    rfl
  · intro b entries read n hfil
    rw [ReplayBuffer.load_demonstrations,
      selectDemos_eq_take entries n 0 (Nat.zero_le n), hfil]
    rfl

/-- **C5, witness.**  Concrete instances of both parts of the amended
claim. -/
theorem empty_buffer_sample_and_demos_witness :
    RandomSampler.sample_func [("ac", ([] : List (List Val)))] 1
        (fun _ => 0) (fun _ => 0) = none ∧
    ReplayBuffer.load_demonstrations (ReplayBuffer.init 3 KS4)
        [⟨"demo.txt", true⟩] (fun _ => ⟨[], [], []⟩) 0
      = some (ReplayBuffer.init 3 KS4) := by
  constructor
  · exact empty_buffer_sample_and_demos.1 _ 1 _ _ rfl (Nat.le_refl 1)
  · exact empty_buffer_sample_and_demos.2 _ _ _ 0 rfl

/-! ## Claim C6 -/

theorem replicate_set_last (L : ℕ) (hL : 1 ≤ L) (x y : Val) :
    (List.replicate L x).set (L - 1) y
      = List.replicate (L - 1) x ++ [y] := by
  induction L with
  | zero => cases hL
  | succ n ih =>
      cases n with
      | zero => rfl
      | succ m =>
          show (x :: List.replicate (m + 1) x).set (m + 1) y
            = x :: (List.replicate m x ++ [y])
          rw [List.set_cons_succ]
          have := ih (by omega)
          simp only [Nat.add_sub_cancel] at this
          rw [this]

/-- **C6.**  `load_demonstrations(folder, num_demos)` loads exactly
`min(#matching files, num_demos + 1)` demonstration files — the first
`num_demos + 1` regular files with the `pkl` suffix in enumeration
order — and feeds each one through `store_episode` after converting
it: the flat action list becomes per-step single-key mappings
`{"default": action}`, and the synthesized `done` vector has length
`len(actions)`, all zeros with a trailing `1`. -/
theorem load_demonstrations_spec (b : Buffer) (entries : List DirEntry)
    (read : String → Demo) (n : ℕ) :
    (selectDemos entries 0 n).length
      = min ((entries.filter
          (fun e => e.is_file && pathEndsWith e.path "pkl")).length)
        (n + 1) ∧
    ReplayBuffer.load_demonstrations b entries read n
      = (((entries.filter
          (fun e => e.is_file && pathEndsWith e.path "pkl")).map
            (fun e => e.path)).take (n + 1)).foldlM
          (fun acc path => (demoRollout (read path)).bind
            (fun r => ReplayBuffer.store_episode acc r)) b ∧
    (∀ dm : Demo, 1 ≤ dm.actions.length →
      demoRollout dm = some (fun k =>
        if k = "ob" then dm.obs
        else if k = "ac" then dm.actions.map
          (fun a => Val.vdict [("default", a)])
        else if k = "rew" then dm.rewards
        else if k = "done" then
          List.replicate (dm.actions.length - 1) (Val.num 0)
            ++ [Val.num 1]
        else [])) := by
  refine ⟨?_, ?_, ?_⟩
  · rw [selectDemos_eq_take entries n 0 (Nat.zero_le n)]
    rw [List.length_take, List.length_map]
    omega
  · rw [ReplayBuffer.load_demonstrations,
      selectDemos_eq_take entries n 0 (Nat.zero_le n)]
    rfl
  · intro dm hdm
    rw [demoRollout, if_neg (by omega)]
    refine congrArg some (funext fun k => ?_)
    by_cases h1 : k = "ob"
    · simp [h1]
    · by_cases h2 : k = "ac"
      · simp [h1, h2]
      · by_cases h3 : k = "rew"
        · simp [h1, h2, h3]
        · by_cases h4 : k = "done"
          · subst h4
            simp only [if_neg (show ¬ ("done" : String) = "ob" by decide),
              if_neg (show ¬ ("done" : String) = "ac" by decide),
              if_neg (show ¬ ("done" : String) = "rew" by decide),
              if_pos (rfl : ("done" : String) = "done")]
            exact replicate_set_last dm.actions.length hdm
              (Val.num 0) (Val.num 1)
          · simp [h1, h2, h3, h4]

/-- **C6, witness.**  Three matching files with `num_demos = 2` would
load all three; with `num_demos = 1` exactly `2 = min(3, 1 + 1)` are
selected, and a concrete one-action demo converts with a `done` vector
`[1]`. -/
theorem load_demonstrations_spec_witness :
    (selectDemos [⟨"a.pkl", true⟩, ⟨"b.pkl", true⟩, ⟨"c.pkl", true⟩]
      0 1).length = 2 ∧
    (demoRollout ⟨[Val.num 5, Val.num 6], [Val.num 7],
      [Val.num 8]⟩).isSome = true := by
  constructor
  · rw [(load_demonstrations_spec (ReplayBuffer.init 1 KS4)
      [⟨"a.pkl", true⟩, ⟨"b.pkl", true⟩, ⟨"c.pkl", true⟩]
      (fun _ => ⟨[], [], []⟩) 1).1]
    rfl
  · rw [(load_demonstrations_spec (ReplayBuffer.init 1 KS4) []
      (fun _ => ⟨[], [], []⟩) 0).2.2
      ⟨[Val.num 5, Val.num 6], [Val.num 7], [Val.num 8]⟩ (by decide)]
    rfl

/-! ## Claim C7 -/

/-- **C7.**  For a store with at least one episode (all of positive
length, and `ob` one longer than `ac` per episode as the storage
invariant guarantees), `sample_func(store, batch_size)` succeeds and:
every key of the returned batch (including the synthesized `ob_next`)
holds exactly `batch_size` entries; each drawn timestep `t` lies in
`[0, len(ac[episode_idx]))` for its own episode — independently per
draw, with replacement, as the entropy functions `gE`, `gT` are
consulted afresh per index; and the `i`-th `ob_next` entry is exactly
the element `ob[episode_idx][t + 1]` of the same episode (an in-range
read). -/
theorem sample_func_spec (eb : EpisodeBatch) (bs : ℕ) (gE gT : ℕ → ℕ)
    (h0 : 0 < (dget eb "ac" []).length)
    (hlen : ∀ j < (dget eb "ac" []).length, 0 < acLen eb j)
    (hoblen : ∀ j < (dget eb "ac" []).length,
      ((dget eb "ob" []).getD j []).length = acLen eb j + 1)
    (out : List (String × List Val))
    (hrun : RandomSampler.sample_func eb bs gE gT = some out) :
    (∀ k v, (k, v) ∈ out → v.length = bs) ∧
    (∀ i, i < bs →
      tDraw eb gE gT i < acLen eb (epDraw eb gE i) ∧
      (dget out "ob_next" []).get? i
        = some (((dget eb "ob" []).getD (epDraw eb gE i) []).getD
            (tDraw eb gE gT i + 1) (Val.num 0)) ∧
      ((dget eb "ob" []).getD (epDraw eb gE i) []).get?
          (tDraw eb gE gT i + 1)
        = some (((dget eb "ob" []).getD (epDraw eb gE i) []).getD
            (tDraw eb gE gT i + 1) (Val.num 0))) := by
  rw [sample_func_run eb bs gE gT h0 hlen] at hrun
  cases hrun
  have hplen : (drawPairs eb bs gE gT).length = bs := by
    rw [drawPairs, List.length_map, List.length_range]
  constructor
  · intro k v hmem
    rcases mem_dset _ _ _ _ hmem with hin | heq
    · rw [gatherOut] at hin
      rcases List.mem_map.mp hin with ⟨kv, _, hkv⟩
      have : v = (drawPairs eb bs gE gT).map
          (fun p => (kv.2.getD p.1 []).getD p.2 (Val.num 0)) :=
        congrArg Prod.snd hkv.symm
      rw [this, List.length_map, hplen]
    · have : v = obNextOut eb bs gE gT := congrArg Prod.snd heq
      rw [this, obNextOut, List.length_map, hplen]
  · intro i hi
    refine ⟨tDraw_lt eb gE gT i h0 hlen, ?_, ?_⟩
    · rw [dget, dlookup_dset_self]
      show (obNextOut eb bs gE gT).get? i = _
      rw [obNextOut, drawPairs, List.map_map, List.get?_eq_getElem?,
        List.getElem?_map, List.getElem?_range hi]
      rfl
    · have hep : epDraw eb gE i < (dget eb "ac" []).length :=
        epDraw_lt eb gE i h0
      have hlt : tDraw eb gE gT i + 1
          < ((dget eb "ob" []).getD (epDraw eb gE i) []).length := by
        rw [hoblen _ hep]
        exact Nat.succ_lt_succ (tDraw_lt eb gE gT i h0 hlen)
      rw [List.get?_eq_getElem?, List.getElem?_eq_getElem hlt]
      rw [List.getD_eq_getElem _ _ hlt]

/-- **C7, witness.**  A one-episode store of length 1: the single
sampled transition has `t = 0` and `ob_next = ob[0][1]`. -/
theorem sample_func_spec_witness :
    (dget [("ac", [Val.num 3]), ("ob", [Val.num 1]),
        ("ob_next", [Val.num 2])] "ob_next" []).get? 0
      = some (Val.num 2) := by
  have h := sample_func_spec
    [("ac", [[Val.num 3]]), ("ob", [[Val.num 1, Val.num 2]])] 1
    (fun _ => 0) (fun _ => 0) (by decide) (by decide) (by decide)
    [("ac", [Val.num 3]), ("ob", [Val.num 1]),
     ("ob_next", [Val.num 2])] rfl
  exact (h.2 0 (by decide)).2.1

/-! ## Claims C2 and C3 -/

theorem herKeep_eq (eb : EpisodeBatch) (bs : ℕ) (gE gT : ℕ → ℕ) (i : ℕ)
    (hi : i < bs) (gs : List (List Val)) (hg : dlookup eb "g" = some gs) :
    herKeep eb bs gE gT i
      = (gs.getD (epDraw eb gE i) []).getD (tDraw eb gE gT i)
          (Val.num 0) := by
  have h5 := dlookup_map_val (fun eps => (drawPairs eb bs gE gT).map
      (fun p => (eps.getD p.1 []).getD p.2 (Val.num 0))) eb "g"
  rw [hg] at h5
  rw [herKeep, dget]
  rw [show dlookup (gatherOut eb bs gE gT) "g"
      = some ((drawPairs eb bs gE gT).map
        (fun p => (gs.getD p.1 []).getD p.2 (Val.num 0))) from h5]
  rw [Option.getD_some, drawPairs, List.map_map, getD_map_range _ _ _ hi]
  rfl

theorem dget_herOut_g (reward_func : Val → Val → Option Val → ℚ)
    (fp : ℚ) (eb : EpisodeBatch) (bs : ℕ) (gE gT : ℕ → ℕ) (gU : ℕ → ℚ)
    (gF : ℕ → ℕ) :
    dget (herOut reward_func fp eb bs gE gT gU gF) "g" []
      = herGList reward_func fp eb bs gE gT gU gF := by
  rw [herOut, dget,
    dlookup_dset_ne _ _ _ _ (by decide : ("g" : String) ≠ "r"),
    dlookup_dset_ne _ _ _ _ (by decide : ("g" : String) ≠ "ob_next"),
    dlookup_dset_self]
  rfl

/-- **C2.**  In `sample_her_transitions`, for each sampled
`(episode_idx, t)` independently: when the uniform draw falls below
`future_p`, the future index is drawn from
`np.random.randint(t + 1, len(ac[episode_idx]) + 1)` — so
`t + 1 ≤ future_t ≤ len(ac[episode_idx])`, the terminal index
included, and every index in that range is attainable as the entropy
varies (the support of the uniform draw) — and the sample's goal is
overwritten with
`ag[episode_idx][future_t]` exactly when
`reward_func(ag[episode_idx][t], future_ag, None) < 0`; the
already-successful skip check inspects `ag` at time `t` (not `t + 1`),
and otherwise the sample's goal keeps its stored value
`g[episode_idx][t]`. -/
theorem sample_her_goal_relabel (reward_func : Val → Val → Option Val → ℚ)
    (fp : ℚ) (eb : EpisodeBatch) (bs : ℕ) (gE gT : ℕ → ℕ) (gU : ℕ → ℚ)
    (gF : ℕ → ℕ)
    (h0 : 0 < (dget eb "ac" []).length)
    (hlen : ∀ j < (dget eb "ac" []).length, 0 < acLen eb j)
    (gs : List (List Val)) (hg : dlookup eb "g" = some gs)
    (out : List (String × List Val))
    (hrun : HERSampler.sample_her_transitions reward_func fp eb bs gE gT
      gU gF = some out) :
    ∀ i, i < bs →
      (tDraw eb gE gT i + 1 ≤ ftDraw eb gE gT gF i ∧
        ftDraw eb gE gT gF i ≤ acLen eb (epDraw eb gE i) ∧
        (∀ v, tDraw eb gE gT i + 1 ≤ v → v ≤ acLen eb (epDraw eb gE i) →
          ∃ e, ftDraw eb gE gT (fun _ => e) i = v)) ∧
      (dget out "g" []).get? i = some (
        if gU i < fp ∧
            reward_func (agAt eb (epDraw eb gE i) (tDraw eb gE gT i))
              (agAt eb (epDraw eb gE i) (ftDraw eb gE gT gF i)) none < 0
        then agAt eb (epDraw eb gE i) (ftDraw eb gE gT gF i)
        else (gs.getD (epDraw eb gE i) []).getD (tDraw eb gE gT i)
          (Val.num 0)) := by
  rw [sample_her_run reward_func fp eb bs gE gT gU gF h0 hlen] at hrun
  cases hrun
  intro i hi
  have ht := tDraw_lt eb gE gT i h0 hlen
  constructor
  · refine ⟨Nat.le_add_right _ _, ?_, ?_⟩
    · have hmod : gF i % (acLen eb (epDraw eb gE i) - tDraw eb gE gT i)
          < acLen eb (epDraw eb gE i) - tDraw eb gE gT i :=
        Nat.mod_lt _ (by omega)
      simp only [ftDraw]
      omega
    · intro v hv1 hv2
      refine ⟨v - (tDraw eb gE gT i + 1), ?_⟩
      simp only [ftDraw]
      rw [Nat.mod_eq_of_lt (by omega)]
      omega
  · rw [dget_herOut_g, herGList, List.get?_eq_getElem?,
      List.getElem?_map, List.getElem?_range hi]
    simp only [Option.map_some']
    rw [herG, herKeep_eq eb bs gE gT i hi gs hg]

/-- **C2, witness.**  A concrete relabeling: one episode of length 1,
`future_p = 1`, gathered goal `9`, achieved goals `3` (at `t = 0`) and
`4` (terminal); the drawn `future_t` is `1`, the skip check compares
`ag[0][0] = 3` against `4` (reward `-1 < 0`), so the goal is
overwritten with `4`. -/
theorem sample_her_goal_relabel_witness :
    (dget (herOut (fun a g _ => if a.toQ = g.toQ then 0 else -1) 1
        [("ac", [[Val.num 0]]), ("ob", [[Val.num 1, Val.num 2]]),
         ("ag", [[Val.num 3, Val.num 4]]), ("g", [[Val.num 9]])] 1
        (fun _ => 0) (fun _ => 0) (fun _ => 0) (fun _ => 0))
      "g" []).get? 0 = some (Val.num 4) := by
  have h := sample_her_goal_relabel
    (fun a g _ => if a.toQ = g.toQ then 0 else -1) 1
    [("ac", [[Val.num 0]]), ("ob", [[Val.num 1, Val.num 2]]),
     ("ag", [[Val.num 3, Val.num 4]]), ("g", [[Val.num 9]])] 1
    (fun _ => 0) (fun _ => 0) (fun _ => 0) (fun _ => 0)
    (by decide) (by decide) [[Val.num 9]] rfl
    (herOut (fun a g _ => if a.toQ = g.toQ then 0 else -1) 1
      [("ac", [[Val.num 0]]), ("ob", [[Val.num 1, Val.num 2]]),
       ("ag", [[Val.num 3, Val.num 4]]), ("g", [[Val.num 9]])] 1
      (fun _ => 0) (fun _ => 0) (fun _ => 0) (fun _ => 0))
    (sample_her_run _ _ _ _ _ _ _ _ (by decide) (by decide))
  exact ((h 0 (by decide)).2).trans rfl

/-- **C3.**  Every transition returned by `sample_her_transitions` has
its reward recomputed as `reward_func(ag[episode_idx][t + 1], g_final,
None)` with `g_final` the (possibly relabeled) goal of that very
sample — the stored environment reward never enters the computation —
and when `future_p = 0` (the uniform draw being nonnegative) the goal
is never replaced: it stays the gathered `g[episode_idx][t]`.  The
`HERSampler` configuration sets `future_p = 0` whenever
`replay_strategy` is not `"future"`. -/
theorem sample_her_reward (reward_func : Val → Val → Option Val → ℚ)
    (fp : ℚ) (eb : EpisodeBatch) (bs : ℕ) (gE gT : ℕ → ℕ) (gU : ℕ → ℚ)
    (gF : ℕ → ℕ)
    (h0 : 0 < (dget eb "ac" []).length)
    (hlen : ∀ j < (dget eb "ac" []).length, 0 < acLen eb j)
    (gs : List (List Val)) (hg : dlookup eb "g" = some gs)
    (out : List (String × List Val))
    (hrun : HERSampler.sample_her_transitions reward_func fp eb bs gE gT
      gU gF = some out) :
    (∀ i, i < bs →
      (dget out "r" []).get? i = some (Val.num (reward_func
        (agAt eb (epDraw eb gE i) (tDraw eb gE gT i + 1))
        ((dget out "g" []).getD i (Val.num 0)) none))) ∧
    (∀ i, i < bs → fp = 0 → 0 ≤ gU i →
      (dget out "g" []).get? i
        = some ((gs.getD (epDraw eb gE i) []).getD (tDraw eb gE gT i)
            (Val.num 0))) ∧
    (∀ s r', s ≠ "future" → HERSampler.future_p s r' = 0) := by
  rw [sample_her_run reward_func fp eb bs gE gT gU gF h0 hlen] at hrun
  cases hrun
  refine ⟨?_, ?_, ?_⟩
  · intro i hi
    have hr : dget (herOut reward_func fp eb bs gE gT gU gF) "r" []
        = herRList reward_func fp eb bs gE gT gU gF := by
      rw [herOut, dget, dlookup_dset_self]
      rfl
    rw [hr, dget_herOut_g, herRList, List.get?_eq_getElem?,
      List.getElem?_map, List.getElem?_range hi]
    simp only [Option.map_some']
    rw [show (drawPairs eb bs gE gT).getD i (0, 0)
        = (epDraw eb gE i, tDraw eb gE gT i) from by
      rw [drawPairs, getD_map_range _ _ _ hi]]
    rfl
  · intro i hi hfp hu
    rw [dget_herOut_g, herGList, List.get?_eq_getElem?,
      List.getElem?_map, List.getElem?_range hi]
    simp only [Option.map_some']
    rw [herG, if_neg (fun hc => absurd (hfp ▸ hc.1) (not_lt.mpr hu)),
      herKeep_eq eb bs gE gT i hi gs hg]
  · intro s r' hs
    rw [HERSampler.future_p, if_neg hs]

/-- **C3, witness.**  With `future_p = 0` on the same concrete store,
the goal keeps its stored value `9` and the reward is recomputed as
`reward_func(ag[0][1] = 4, 9, None) = -1`; a non-`"future"` strategy
yields `future_p = 0`. -/
theorem sample_her_reward_witness :
    (dget (herOut (fun a g _ => if a.toQ = g.toQ then 0 else -1) 0
        [("ac", [[Val.num 0]]), ("ob", [[Val.num 1, Val.num 2]]),
         ("ag", [[Val.num 3, Val.num 4]]), ("g", [[Val.num 9]])] 1
        (fun _ => 0) (fun _ => 0) (fun _ => 0) (fun _ => 0))
      "r" []).get? 0 = some (Val.num (-1)) ∧
    (dget (herOut (fun a g _ => if a.toQ = g.toQ then 0 else -1) 0
        [("ac", [[Val.num 0]]), ("ob", [[Val.num 1, Val.num 2]]),
         ("ag", [[Val.num 3, Val.num 4]]), ("g", [[Val.num 9]])] 1
        (fun _ => 0) (fun _ => 0) (fun _ => 0) (fun _ => 0))
      "g" []).get? 0 = some (Val.num 9) ∧
    HERSampler.future_p "none" (1 / 2) = 0 := by
  have h := sample_her_reward
    (fun a g _ => if a.toQ = g.toQ then 0 else -1) 0
    [("ac", [[Val.num 0]]), ("ob", [[Val.num 1, Val.num 2]]),
     ("ag", [[Val.num 3, Val.num 4]]), ("g", [[Val.num 9]])] 1
    (fun _ => 0) (fun _ => 0) (fun _ => 0) (fun _ => 0)
    (by decide) (by decide) [[Val.num 9]] rfl
    (herOut (fun a g _ => if a.toQ = g.toQ then 0 else -1) 0
      [("ac", [[Val.num 0]]), ("ob", [[Val.num 1, Val.num 2]]),
       ("ag", [[Val.num 3, Val.num 4]]), ("g", [[Val.num 9]])] 1
      (fun _ => 0) (fun _ => 0) (fun _ => 0) (fun _ => 0))
    (sample_her_run _ _ _ _ _ _ _ _ (by decide) (by decide))
  refine ⟨(h.1 0 (by decide)).trans rfl,
    (h.2.1 0 (by decide) rfl (by decide)).trans rfl,
    h.2.2 "none" (1 / 2) (by decide)⟩

/-! ## Claim C9 -/

theorem zip_zero_num (l : List Val) (z : List ℚ)
    (hlen : l.length ≤ z.length) (hz : ∀ q ∈ z, q = 0)
    (hn : ∀ v ∈ l, ∃ q, v = Val.num q) :
    (l.zip z).map (fun p => Val.num (p.1.toQ + p.2)) = l := by
  induction l generalizing z with
  | nil => rfl
  | cons v l ih =>
      cases z with
      | nil => simp at hlen
      | cons q z =>
          rw [List.zip_cons_cons, List.map_cons]
          have hq : q = 0 := hz q (List.mem_cons_self q z)
          obtain ⟨qq, hv⟩ := hn v (List.mem_cons_self v l)
          rw [ih z (by simpa using hlen)
            (fun x hx => hz x (List.mem_cons_of_mem _ hx))
            (fun x hx => hn x (List.mem_cons_of_mem _ hx))]
          rw [hq, hv]
          simp [Val.toQ]

theorem getD_getD_num (evs : List (List Val))
    (hnum : ∀ l ∈ evs, ∀ v ∈ l, ∃ q, v = Val.num q) (j s : ℕ) :
    ∃ q, ((evs.getD j []).getD s (Val.num 0)) = Val.num q := by
  by_cases hj : j < evs.length
  · have hmem : evs.getD j [] ∈ evs := by
      rw [List.getD_eq_getElem _ _ hj]
      exact List.getElem_mem hj
    by_cases hs2 : s < (evs.getD j []).length
    · have hin : (evs.getD j []).getD s (Val.num 0) ∈ evs.getD j [] := by
        rw [List.getD_eq_getElem _ _ hs2]
        exact List.getElem_mem hs2
      exact hnum _ hmem _ hin
    · exact ⟨0, by rw [List.getD_eq_default _ _ (Nat.le_of_not_lt hs2)]⟩
  · exact ⟨0, by
      rw [List.getD_eq_default _ _ (Nat.le_of_not_lt hj)]
      rfl⟩

/-- **C9.**  Given identical random draws (the same entropy functions
and batch size), `LearnedRewardReplayBuffer.sample` returns exactly
`RandomSampler.sample_func`'s batch extended at the `"rew"` key with
`np.array(env_rew) + intrinsic(ob, ob_next)`: every other key is
untouched; and with an identically-zero intrinsic reward function the
sampled `rew` equals the stored environment reward `env_rew`. -/
theorem learned_reward_sample_spec (rew : List Val → List Val → List ℚ)
    (eb : EpisodeBatch) (bs : ℕ) (gE gT : ℕ → ℕ) :
    (LearnedRewardReplayBuffer.sample rew eb bs gE gT
      = (RandomSampler.sample_func eb bs gE gT).map
          (fun o => dset o "rew" (lrRews rew o))) ∧
    (∀ o k, k ≠ "rew" →
      dlookup (dset o "rew" (lrRews rew o)) k = dlookup o k) ∧
    (∀ evs, 0 < (dget eb "ac" []).length →
      (∀ j < (dget eb "ac" []).length, 0 < acLen eb j) →
      dlookup eb "env_rew" = some evs →
      (∀ l ∈ evs, ∀ v ∈ l, ∃ q, v = Val.num q) →
      ∀ out2, LearnedRewardReplayBuffer.sample
          (fun a b => List.replicate b.length 0) eb bs gE gT
        = some out2 →
        dget out2 "rew" [] = dget out2 "env_rew" []) := by
  refine ⟨lr_sample_eq_map rew eb bs gE gT, ?_, ?_⟩
  · intro o k hk
    exact dlookup_dset_ne _ _ _ _ hk
  · intro evs h0 hlen henv hnum out2 hout
    rw [lr_sample_eq_map, sample_func_run eb bs gE gT h0 hlen,
      Option.map_some'] at hout
    cases hout
    have hplen : (drawPairs eb bs gE gT).length = bs := by
      rw [drawPairs, List.length_map, List.length_range]
    have hobn : dget (dset (gatherOut eb bs gE gT) "ob_next"
        (obNextOut eb bs gE gT)) "ob_next" [] = obNextOut eb bs gE gT :=
      dget_dset_self _ _ _ _
    have henv2 : dget (dset (gatherOut eb bs gE gT) "ob_next"
        (obNextOut eb bs gE gT)) "env_rew" []
        = (drawPairs eb bs gE gT).map
            (fun p => ((evs.getD p.1 []).getD p.2 (Val.num 0))) := by
      rw [dget_dset_ne _ _ _ _ _
        (by decide : ("env_rew" : String) ≠ "ob_next")]
      have h5 := dlookup_map_val (fun eps => (drawPairs eb bs gE gT).map
          (fun p => (eps.getD p.1 []).getD p.2 (Val.num 0))) eb "env_rew"
      rw [henv] at h5
      rw [dget, show dlookup (gatherOut eb bs gE gT) "env_rew"
          = some ((drawPairs eb bs gE gT).map
            (fun p => (evs.getD p.1 []).getD p.2 (Val.num 0))) from h5]
      rfl
    rw [dget_dset_self, dget_dset_ne _ _ _ _ _
      (by decide : ("env_rew" : String) ≠ "rew"), lrRews, hobn, henv2]
    apply zip_zero_num
    · rw [List.length_replicate, List.length_map, hplen, obNextOut,
        List.length_map, hplen]
    · intro q hq
      exact List.eq_of_mem_replicate hq
    · intro v hv
      rcases List.mem_map.mp hv with ⟨p, _, hp⟩
      rw [← hp]
      exact getD_getD_num evs hnum p.1 p.2

/-- **C9, witness.**  A one-episode store with stored environment
reward `7`: under the zero intrinsic function, the sampled `rew` list
equals the gathered `env_rew` list. -/
theorem learned_reward_sample_spec_witness :
    dget (dset (dset (gatherOut
        [("ac", [[Val.num 0]]), ("ob", [[Val.num 1, Val.num 2]]),
         ("env_rew", [[Val.num 7]])] 1 (fun _ => 0) (fun _ => 0))
        "ob_next" (obNextOut
        [("ac", [[Val.num 0]]), ("ob", [[Val.num 1, Val.num 2]]),
         ("env_rew", [[Val.num 7]])] 1 (fun _ => 0) (fun _ => 0)))
        "rew" (lrRews (fun a b => List.replicate b.length 0)
          (dset (gatherOut
            [("ac", [[Val.num 0]]), ("ob", [[Val.num 1, Val.num 2]]),
             ("env_rew", [[Val.num 7]])] 1 (fun _ => 0) (fun _ => 0))
            "ob_next" (obNextOut
            [("ac", [[Val.num 0]]), ("ob", [[Val.num 1, Val.num 2]]),
             ("env_rew", [[Val.num 7]])] 1 (fun _ => 0) (fun _ => 0)))))
      "rew" []
    = dget (dset (dset (gatherOut
        [("ac", [[Val.num 0]]), ("ob", [[Val.num 1, Val.num 2]]),
         ("env_rew", [[Val.num 7]])] 1 (fun _ => 0) (fun _ => 0))
        "ob_next" (obNextOut
        [("ac", [[Val.num 0]]), ("ob", [[Val.num 1, Val.num 2]]),
         ("env_rew", [[Val.num 7]])] 1 (fun _ => 0) (fun _ => 0)))
        "rew" (lrRews (fun a b => List.replicate b.length 0)
          (dset (gatherOut
            [("ac", [[Val.num 0]]), ("ob", [[Val.num 1, Val.num 2]]),
             ("env_rew", [[Val.num 7]])] 1 (fun _ => 0) (fun _ => 0))
            "ob_next" (obNextOut
            [("ac", [[Val.num 0]]), ("ob", [[Val.num 1, Val.num 2]]),
             ("env_rew", [[Val.num 7]])] 1 (fun _ => 0) (fun _ => 0)))))
      "env_rew" [] := by
  apply (learned_reward_sample_spec
    (fun a b => List.replicate b.length 0)
    [("ac", [[Val.num 0]]), ("ob", [[Val.num 1, Val.num 2]]),
     ("env_rew", [[Val.num 7]])] 1 (fun _ => 0) (fun _ => 0)).2.2
    [[Val.num 7]] (by decide) (by decide) rfl
  · intro l hl v hv
    rw [List.mem_singleton] at hl
    subst hl
    rw [List.mem_singleton] at hv
    subst hv
    exact ⟨7, rfl⟩
  · rw [(learned_reward_sample_spec
      (fun a b => List.replicate b.length 0)
      [("ac", [[Val.num 0]]), ("ob", [[Val.num 1, Val.num 2]]),
       ("env_rew", [[Val.num 7]])] 1 (fun _ => 0) (fun _ => 0)).1,
      sample_func_run _ 1 (fun _ => 0) (fun _ => 0) (by decide)
        (by decide), Option.map_some']
